import Mathlib

/-!
Shallow embedding of the fee-resolution engine of the Jami billing
automation repository, together with theorems checking the specification
claims against it.

The embedding follows the source files:
* `server-upgradedv2.py` — `extract_fee_information`, `generate_fees_table`,
  `scan_for_key_fees`, `lookup_repo_fee`;
* `azure_database_fee_card_final.py` — the whitelist scoring variant;
* `lookup_repo_fee.py` / `lookup_repo_fee_simple.py` — the standalone lookup.

Python strings are modelled as Lean `String`s, Python floats on the decimal
literals this program manufactures as `ℚ`, the relational store as lists of
rows, and `None`-returning fallible functions as `Option`.
-/

namespace JamiFee

/-- Single-quote character, kept as a named constant for building message
strings that quote their arguments. -/
def sq : String := (Char.ofNat 39).toString

/-! ### Python string primitives -/

/-- Python whitespace class `\s` over ASCII: space, tab, newline, carriage
return, vertical tab, form feed. -/
def pyIsWs (c : Char) : Bool :=
  c = ' ' || c = '\t' || c = '\n' || c = '\r' || c = Char.ofNat 11 || c = Char.ofNat 12

/-- Python `str.strip()` on a char list: drop leading and trailing whitespace. -/
def stripChars (l : List Char) : List Char :=
  ((l.dropWhile pyIsWs).reverse.dropWhile pyIsWs).reverse

/-- Python `str.strip()`. -/
def pyStrip (s : String) : String := String.mk (stripChars s.data)

/-- Python `str.lower()` (ASCII case mapping, which covers every string this
program compares). -/
def lowerStr (s : String) : String := String.mk (s.data.map Char.toLower)

/-- Helper of `collapseWs`: the flag records whether the previous character
was whitespace (so the current run is already represented). -/
def collapseWsAux : Bool → List Char → List Char
  | _, [] => []
  | inWs, c :: cs =>
    if pyIsWs c then
      if inWs then collapseWsAux true cs
      else ' ' :: collapseWsAux true cs
    else c :: collapseWsAux false cs

/-- Collapse every maximal whitespace run to a single space
(`re.sub(r'\s+', ' ', ·)`). -/
def collapseWs (l : List Char) : List Char := collapseWsAux false l

/-- Embedding of `normalize` from `generate_fees_table`:
`re.sub(r'\s+', ' ', text.lower().strip())`. -/
def normalize (s : String) : String :=
  String.mk (collapseWs (stripChars (lowerStr s).data))

/-- Python substring test `needle in hay`. -/
def strContains (hay needle : String) : Bool :=
  hay.data.tails.any (fun t => needle.data.isPrefixOf t)

/-- Python `str.replace(',', '')`: drop every comma. -/
def stripCommas (s : String) : String := String.mk (s.data.filter (fun c => c ≠ ','))

/-- Value of a decimal digit string (most significant first). -/
def digitsVal (l : List Char) : ℕ :=
  l.foldl (fun a c => a * 10 + (c.toNat - ('0').toNat)) 0

/-- Python `float(s)` on the decimal literals occurring in this pipeline:
optional sign, integer digits, optional fraction. Any other shape (such as
the empty string, a lone comma, or trailing junk) raises `ValueError` in
Python and is `none` here. Exponent, `inf` and `nan` spellings never reach
this code and are out of the modelled domain. -/
def pyFloat? (s : String) : Option ℚ :=
  let t := stripChars s.data
  let sgn : ℤ × List Char :=
    match t with
    | '-' :: r => (-1, r)
    | '+' :: r => (1, r)
    | r => (1, r)
  let intd := sgn.2.takeWhile Char.isDigit
  let rest := sgn.2.dropWhile Char.isDigit
  match rest with
  | [] =>
    if intd.isEmpty then none
    else some (mkRat (sgn.1 * (digitsVal intd : ℤ)) 1)
  | '.' :: r2 =>
    let frac := r2.takeWhile Char.isDigit
    let rest2 := r2.dropWhile Char.isDigit
    if rest2.isEmpty && (!intd.isEmpty || !frac.isEmpty) then
      some (mkRat
        (sgn.1 * ((digitsVal intd * 10 ^ frac.length + digitsVal frac : ℕ) : ℤ))
        (10 ^ frac.length))
    else none
  | _ => none

/-- Two-digit zero-padded rendering of a value below 100. -/
def natPad2 (n : ℕ) : String :=
  if n < 10 then "0" ++ toString n else toString n

/-- The cent value `⌊100·v + 1/2⌋`, computed on the numerator and
denominator directly (for `v = n/d` in lowest terms with `d > 0`, this is
`⌊(200·n + d) / (2·d)⌋`). -/
def cents2 (v : ℚ) : ℤ :=
  Int.fdiv (200 * v.num + (v.den : ℤ)) (2 * (v.den : ℤ))

/-- Python two-decimal float formatting (the `.2f` f-string) on the currency
values this pipeline formats: round
to cents and render with two decimals. (Python formats the nearest double;
the two agree on every value reaching this function, whose inputs are exact
two-decimal literals.) -/
def fmt2 (v : ℚ) : String :=
  let c : ℤ := cents2 v
  let a := c.natAbs
  let core := toString (a / 100) ++ "." ++ natPad2 (a % 100)
  if c < 0 then "-" ++ core else core

/-! ### Configuration: source priorities and the pre-approved whitelist -/

/-- Embedding of `priority_map` of `generate_fees_table` together with its
`.get(source, 3)` default. -/
def priorityOf (source : String) : ℕ :=
  if source = "Database" then 0
  else if source = "My Summary" then 1
  else if source = "Updates" then 2
  else 3

/-- The whitelist `config["pre_approved_fees"]` from `server-upgradedv2.py`. -/
def preApprovedFees : List String :=
  ["Field Visit", "Flatbed Fees", "Dolly Fees", "Mileage/ Fuel", "Incentive",
   "Frontend", "Frontend (for Impound)", "LPR Invoulantry Repo",
   "LPR REPOSSESSION", "Finder" ++ sq ++ "s fee", "CR AND PHOTOS FEE",
   "Fuel Surcharge", "OTHER", "SKIP REPOSSESSION", "Bonus", "Keys Fee",
   "Key Fee", "Involuntary Repo", "Voluntary Repo", "Recovery Fee"]

/-! ### Whitelist matching

`generate_fees_table` (server-upgradedv2.py, the canonical three-table
generator) first loops for an exact lowercase match, then loops for a
containment match in either direction, taking the first hit in whitelist
order. `azure_database_fee_card_final.py` replaces the second loop by a
best-score search with a strict `> 0.5` acceptance threshold. -/

/-- First whitelist entry whose lowercasing equals the (already lowercased)
category — the exact-match loop of the canonical generator. -/
def findExactMatch (wl : List String) (categoryLower : String) : Option String :=
  wl.find? (fun fee => categoryLower == lowerStr fee)

/-- First whitelist entry containing or contained in the category — the
second loop of the canonical generator
(`fee_name.lower() in category_lower or category_lower in fee_name.lower()`). -/
def findContainMatch (wl : List String) (categoryLower : String) : Option String :=
  wl.find? (fun fee =>
    strContains categoryLower (lowerStr fee) || strContains (lowerStr fee) categoryLower)

/-- Whitelist matching of the canonical generator: exact match first, then
containment. -/
def matchPredefined (wl : List String) (categoryLower : String) : Option String :=
  match findExactMatch wl categoryLower with
  | some m => some m
  | none => findContainMatch wl categoryLower

/-- The containment score of the spec:
`min(len(w), len(c)) / max(len(w), len(c))`. -/
def specScore (w c : String) : ℚ :=
  mkRat (min w.length c.length : ℕ) (max w.length c.length : ℕ)

/-- The containment score the azure variant assigns to a whitelist entry
against the lowercased category: `len(shorter)/len(longer)` when one
contains the other, `0` otherwise. -/
def azureScoreOf (catL fee : String) : ℚ :=
  if strContains catL (pyStrip (lowerStr fee)) then
    mkRat (pyStrip (lowerStr fee)).length catL.length
  else if strContains (pyStrip (lowerStr fee)) catL then
    mkRat catL.length (pyStrip (lowerStr fee)).length
  else 0

/-- One step of the azure variant's best-score fold. -/
def azureStep (catL : String) (acc : Option String × ℚ) (fee : String) :
    Option String × ℚ :=
  if strContains catL (pyStrip (lowerStr fee)) then
    if mkRat (pyStrip (lowerStr fee)).length catL.length > acc.2 then
      (some fee, mkRat (pyStrip (lowerStr fee)).length catL.length)
    else acc
  else if strContains (pyStrip (lowerStr fee)) catL then
    if mkRat catL.length (pyStrip (lowerStr fee)).length > acc.2 then
      (some fee, mkRat catL.length (pyStrip (lowerStr fee)).length)
    else acc
  else acc

/-- The azure variant's partial-match search: best containment score over the
whitelist, strict improvement only (so the first maximum wins). -/
def azureBest (wl : List String) (catL : String) : Option String × ℚ :=
  wl.foldl (azureStep catL) (none, 0)

/-- The azure variant's partial-match acceptance:
`if best_match and best_match_score > 0.5` (`mkRat 1 2` is `0.5`). -/
def azureContainMatch (wl : List String) (catL : String) : Option String :=
  match azureBest wl catL with
  | (some m, s) => if s > mkRat 1 2 then some m else none
  | (none, _) => none

/-- The azure variant's exact-match loop (entries compared after
`.lower().strip()`). -/
def azureExactMatch (wl : List String) (catL : String) : Option String :=
  wl.find? (fun fee => catL == pyStrip (lowerStr fee))

/-- Whitelist matching of the azure variant: exact match, then thresholded
best score. -/
def azureMatch (wl : List String) (catL : String) : Option String :=
  match azureExactMatch wl catL with
  | some m => some m
  | none => azureContainMatch wl catL

/-! ### A small regex engine

`extract_fee_information` and `scan_for_key_fees` drive Python `re` patterns
through `finditer`. Each pattern used there has the shape
`pre (group) post` with exactly one capturing group of interest, so a pattern
is embedded as a triple of regular expressions and the engine enumerates
match ends in Python's backtracking priority order (alternation prefers the
left branch, greedy repetition prefers more, lazy repetition prefers fewer,
and earlier subexpressions backtrack last). -/

/-- Regular-expression syntax: empty, single-character class, sequence,
alternation, greedy option, greedy star, lazy star, and word boundary. -/
inductive RE where
  | eps : RE
  | cls : (Char → Bool) → RE
  | seq : RE → RE → RE
  | alt : RE → RE → RE
  | opt : RE → RE
  | starG : RE → RE
  | starL : RE → RE
  | wb : RE

/-- Structural size of a regex, used to budget the matcher's fuel. -/
def RE.size : RE → ℕ
  | .eps => 1
  | .cls _ => 1
  | .seq a b => a.size + b.size + 1
  | .alt a b => a.size + b.size + 1
  | .opt a => a.size + 1
  | .starG a => a.size + 1
  | .starL a => a.size + 1
  | .wb => 1

/-- Python `\w` over ASCII: letters, digits, underscore. -/
def isWordChar (c : Char) : Bool := c.isAlphanum || c = '_'

/-- Python `\b` at offset `i` of `t`: the word-ness of the neighbouring
positions differs (out of range counts as non-word). -/
def wordBoundary (t : List Char) (i : ℕ) : Bool :=
  let prev := if 0 < i then isWordChar (t.getD (i - 1) ' ') else false
  let next := if i < t.length then isWordChar (t.getD i ' ') else false
  prev != next

/-- All end offsets at which `r` can match starting at offset `i` of `t`,
in backtracking priority order (first = the alternative Python commits to
first). `fuel` bounds the recursion depth; every caller passes enough for
its inputs. -/
def ends (t : List Char) : ℕ → RE → ℕ → List ℕ
  | 0, _, _ => []
  | _ + 1, .eps, i => [i]
  | _ + 1, .wb, i => if wordBoundary t i then [i] else []
  | _ + 1, .cls p, i =>
    if i < t.length && p (t.getD i ' ') then [i + 1] else []
  | fuel + 1, .seq a b, i =>
    (ends t fuel a i).flatMap (fun e => ends t fuel b e)
  | fuel + 1, .alt a b, i => ends t fuel a i ++ ends t fuel b i
  | fuel + 1, .opt a, i => ends t fuel a i ++ [i]
  | fuel + 1, .starG a, i =>
    ((ends t fuel a i).filter (fun e => i < e)).flatMap
      (fun e => ends t fuel (.starG a) e) ++ [i]
  | fuel + 1, .starL a, i =>
    i :: ((ends t fuel a i).filter (fun e => i < e)).flatMap
      (fun e => ends t fuel (.starL a) e)

/-- A pattern `pre (grp) post` with one capturing group. -/
structure Pat where
  pre : RE
  grp : RE
  post : RE

/-- A match: overall span `[mstart, mend)` and group span `[gstart, gend)`. -/
structure MatchRes where
  mstart : ℕ
  mend : ℕ
  gstart : ℕ
  gend : ℕ
deriving Repr, DecidableEq

/-- Fuel sufficient for the patterns and texts this development evaluates. -/
def patFuel (t : List Char) (p : Pat) : ℕ :=
  (t.length + 2) * (p.pre.size + p.grp.size + p.post.size + 2)

/-- Highest-priority full match of `p` anchored at offset `i`, if any:
the first choice of pre-end, then group-end, then post-end that succeeds. -/
def matchAt (t : List Char) (fuel : ℕ) (p : Pat) (i : ℕ) : Option MatchRes :=
  (ends t fuel p.pre i).findSome? (fun e1 =>
    (ends t fuel p.grp e1).findSome? (fun e2 =>
      (ends t fuel p.post e2).head?.map (fun e3 =>
        { mstart := i, mend := e3, gstart := e1, gend := e2 })))

/-- Helper of `searchFrom`: try each anchor position in turn, at most `fl`
of them. -/
def searchFromAux (t : List Char) (fuel : ℕ) (p : Pat) : ℕ → ℕ → Option MatchRes
  | _, 0 => none
  | j, fl + 1 =>
    match matchAt t fuel p j with
    | some m => some m
    | none => searchFromAux t fuel p (j + 1) fl

/-- Leftmost match of `p` at or after offset `j` (Python's scan loop): the
anchors tried are `j, j+1, …, t.length`. -/
def searchFrom (t : List Char) (fuel : ℕ) (p : Pat) (j : ℕ) : Option MatchRes :=
  searchFromAux t fuel p j (t.length + 1 - j)

/-- The `finditer` scan: collect non-overlapping matches left to right, resuming
after each match's end (advancing one position after an empty match). -/
def finditerAux (t : List Char) (fuel : ℕ) (p : Pat) : ℕ → ℕ → List MatchRes
  | _, 0 => []
  | i, fl + 1 =>
    match searchFrom t fuel p i with
    | none => []
    | some m =>
      m :: finditerAux t fuel p (if m.mend = m.mstart then m.mend + 1 else m.mend) fl

/-- Python `pattern.finditer(s)` for a `pre (grp) post` pattern. -/
def finditer (p : Pat) (s : String) : List MatchRes :=
  finditerAux s.data (patFuel s.data p) p 0 (s.length + 1)

/-- Substring of `s` over `[a, b)` (Python slice semantics). -/
def slice (s : String) (a b : ℕ) : String :=
  String.mk ((s.data.drop a).take (b - a))

/-- The captured group-1 text of a match. -/
def groupStr (s : String) (m : MatchRes) : String := slice s m.gstart m.gend

/-- Python `content[max(0, start-pad) : min(len, end+pad)]` — the context window
stored with each extracted amount. -/
def contextWindow (s : String) (a b pad : ℕ) : String :=
  slice s (a - pad) (min s.length (b + pad))

/-! ### The regexes of `extract_fee_information` and `scan_for_key_fees` -/

/-- Case-sensitive single character. -/
def chr (c : Char) : RE := .cls (fun x => x = c)

/-- Case-insensitive single character (pattern written in lowercase,
matching under `re.IGNORECASE`). -/
def chrI (c : Char) : RE := .cls (fun x => x.toLower = c)

/-- Case-sensitive literal word. -/
def lit (s : String) : RE := (s.data.map chr).foldr RE.seq RE.eps

/-- Case-insensitive literal word. -/
def litI (s : String) : RE := (s.data.map chrI).foldr RE.seq RE.eps

/-- First-preferred alternation over a list. -/
def altList : List RE → RE
  | [] => RE.cls (fun _ => false)
  | [r] => r
  | r :: rs => RE.alt r (altList rs)

/-- Pattern `r+` = `r r*`. -/
def plusG (r : RE) : RE := RE.seq r (RE.starG r)

/-- Class `\d`. -/
def reDigit : RE := RE.cls Char.isDigit

/-- Class `[0-9,]`. -/
def reDigitComma : RE := RE.cls (fun c => c.isDigit || c = ',')

/-- Class `\s`. -/
def reWs : RE := RE.cls pyIsWs

/-- Class `.` (any character but newline, no DOTALL flag is used). -/
def reDot : RE := RE.cls (fun c => c ≠ '\n')

/-- Group `[0-9,]+(\.[0-9]{2})?` — the amount group of the `$`-amount patterns. -/
def grpMoney : RE :=
  RE.seq (plusG reDigitComma) (RE.opt (RE.seq (chr '.') (RE.seq reDigit reDigit)))

/-- Group `\d+(?:,\d+)*(?:\.\d+)?` — the amount group of the bare-number patterns. -/
def grpNumeric : RE :=
  RE.seq (plusG reDigit)
    (RE.seq (RE.starG (RE.seq (chr ',') (plusG reDigit)))
      (RE.opt (RE.seq (chr '.') (plusG reDigit))))

/-- Pattern `money_regex = \$\s*([0-9,]+(\.[0-9]{2})?)`. -/
def moneyPat : Pat :=
  { pre := RE.seq (chr '$') (RE.starG reWs), grp := grpMoney, post := RE.eps }

/-- Pattern `amount_regex = ([0-9,]+(\.[0-9]{2})?)\s*dollars`, IGNORECASE. -/
def dollarsPat : Pat :=
  { pre := RE.eps, grp := grpMoney,
    post := RE.seq (RE.starG reWs) (litI "dollars") }

/-- Pattern `approved_regex = approved\s+(?:fee|amount|payment|cost|charge)s?`
`\s+(?:of|for|:)?\s*\$?\s*([0-9,]+(?:\.[0-9]{2})?)`, IGNORECASE. -/
def approvedPat : Pat :=
  { pre :=
      RE.seq (litI "approved")
        (RE.seq (plusG reWs)
          (RE.seq (altList [litI "fee", litI "amount", litI "payment",
                            litI "cost", litI "charge"])
            (RE.seq (RE.opt (chrI 's'))
              (RE.seq (plusG reWs)
                (RE.seq (RE.opt (altList [litI "of", litI "for", lit ":"]))
                  (RE.seq (RE.starG reWs)
                    (RE.seq (RE.opt (chr '$')) (RE.starG reWs)))))))),
    grp := grpMoney, post := RE.eps }

/-- Pattern `numeric_amount_regex = \b(\d+(?:,\d+)*(?:\.\d+)?)\s*`
`(?:fee|charge|payment|paid|cost|invoice)`, IGNORECASE. -/
def numericAmountPat : Pat :=
  { pre := RE.wb, grp := grpNumeric,
    post := RE.seq (RE.starG reWs)
      (altList [litI "fee", litI "charge", litI "payment", litI "paid",
                litI "cost", litI "invoice"]) }

/-- Pattern `cost_pattern_regex = (?:cost|fee|charge)(?:s)?\s+(?:of|is|:)\s*`
`(\d+(?:,\d+)*(?:\.\d+)?)`, IGNORECASE. -/
def costPat : Pat :=
  { pre :=
      RE.seq (altList [litI "cost", litI "fee", litI "charge"])
        (RE.seq (RE.opt (chrI 's'))
          (RE.seq (plusG reWs)
            (RE.seq (altList [litI "of", litI "is", lit ":"]) (RE.starG reWs)))),
    grp := grpNumeric, post := RE.eps }

/-- Pattern `authorized_regex = (?:authorized|approved|auth[.]?)(?:\s+(?:for|to|:))?`
`\s*(\d+(?:,\d+)*(?:\.\d+)?)`, IGNORECASE. -/
def authorizedPat : Pat :=
  { pre :=
      RE.seq (altList [litI "authorized", litI "approved",
                       RE.seq (litI "auth") (RE.opt (chr '.'))])
        (RE.seq (RE.opt (RE.seq (plusG reWs) (altList [litI "for", litI "to", lit ":"])))
          (RE.starG reWs)),
    grp := grpNumeric, post := RE.eps }

/-- Spacer `\s+` between words of the key patterns. -/
def wsPlus : RE := plusG reWs

/-- Tail `(?:for)?\s*\$\s*` shared by the key-fee patterns. -/
def keyTail : RE :=
  RE.seq (RE.opt (litI "for"))
    (RE.seq (RE.starG reWs) (RE.seq (chr '$') (RE.starG reWs)))

/-- Embedding of `scan_for_key_fees` pattern 1:
`(?:push\s+to\s+start\s+key|key\s+made).*?(?:for)?\s*\$\s*(...)`, IGNORECASE. -/
def keyPat1 : Pat :=
  { pre :=
      RE.seq
        (RE.alt
          (RE.seq (litI "push") (RE.seq wsPlus (RE.seq (litI "to")
            (RE.seq wsPlus (RE.seq (litI "start") (RE.seq wsPlus (litI "key")))))))
          (RE.seq (litI "key") (RE.seq wsPlus (litI "made"))))
        (RE.seq (RE.starL reDot) keyTail),
    grp := grpMoney, post := RE.eps }

/-- Embedding of `scan_for_key_fees` pattern 2:
`advise.*?(?:key|push).*?(?:for)?\s*\$\s*(...)`, IGNORECASE. -/
def keyPat2 : Pat :=
  { pre :=
      RE.seq (litI "advise")
        (RE.seq (RE.starL reDot)
          (RE.seq (altList [litI "key", litI "push"])
            (RE.seq (RE.starL reDot) keyTail))),
    grp := grpMoney, post := RE.eps }

/-- Embedding of `scan_for_key_fees` pattern 3:
`(?:vehicle|car).*?(?:key|push).*?(?:for)?\s*\$\s*(...)`, IGNORECASE. -/
def keyPat3 : Pat :=
  { pre :=
      RE.seq (altList [litI "vehicle", litI "car"])
        (RE.seq (RE.starL reDot)
          (RE.seq (altList [litI "key", litI "push"])
            (RE.seq (RE.starL reDot) keyTail))),
    grp := grpMoney, post := RE.eps }

/-- Embedding of `scan_for_key_fees` pattern 4:
`(?:fee|charge|cost|amount|payment).*?\$\s*(...)`, IGNORECASE. -/
def keyPat4 : Pat :=
  { pre :=
      RE.seq (altList [litI "fee", litI "charge", litI "cost",
                       litI "amount", litI "payment"])
        (RE.seq (RE.starL reDot)
          (RE.seq (chr '$') (RE.starG reWs))),
    grp := grpMoney, post := RE.eps }

/-- Embedding of `scan_for_key_fees` pattern 5 (fallback): `\$\s*(...)`, IGNORECASE. -/
def keyPat5 : Pat :=
  { pre := RE.seq (chr '$') (RE.starG reWs), grp := grpMoney, post := RE.eps }

/-! ### Data model -/

/-- One entry of an update's `amounts` list. A missing `feeType` key is
modelled as the empty string (the code reads it with `.get('feeType', '')`). -/
structure AmountInfo where
  amount : String
  context : String
  isExplicitlyApproved : Bool := false
  feeType : String := ""
deriving Repr, DecidableEq

/-- A fee update record as consumed by `generate_fees_table`: produced by
`extract_fee_information` (source `"Updates"`), the My Summary scraper, the
page scanner (source `"Case Page"`), or the database lookup injection
(source `"Database"`). Missing keys are modelled as `""`/`false`. -/
structure FeeUpdate where
  date : String := ""
  type : String := ""
  user : String := ""
  content : String := ""
  amounts : List AmountInfo := []
  isApproved : Bool := false
  source : String := ""
  feeLabel : String := ""
deriving Repr, DecidableEq

/-- A raw scraped update, input of `extract_fee_information`. -/
structure RawUpdate where
  content : String := ""
  fullText : String := ""
  type : String := ""
  date : String := ""
  user : String := ""
deriving Repr, DecidableEq

/-- An output row of `generate_fees_table`. -/
structure FeeEntry where
  date : String
  amount : String
  type : String
  approver : String
  referenceSentence : String
  approved : String
  category : String
  source : String
  originalCategory : String
  matched : Bool
  matchedAs : String
deriving Repr, DecidableEq

/-! ### `extract_fee_information` (server-upgradedv2.py, lines 1611-1785)

The function also compiles three key-specific patterns
(`key_made_regex`, `vehicle_key_regex`, `advise_regex`, lines 1630-1632)
but never applies them in its loop; no `feeType`/type hint is ever attached
to the amounts it emits. -/

/-- Embedding of `is_fee_related` (the `type_text` parameter is unused in its body).
The final clause's `re.search(r'\d+(?:\.\d+)?', text_lower)` succeeds
exactly when the text contains a digit. -/
def isFeeRelated (text : String) : Bool :=
  strContains text "$" ||
  (let tl := lowerStr text
   strContains tl "fee" || strContains tl "payment" || strContains tl "amount" ||
   strContains tl "charge" || strContains tl "paid" || strContains tl "invoice" ||
   strContains tl "cost" || strContains tl "approved" || strContains tl "auth" ||
   strContains tl "tow" || strContains tl "repo" || strContains tl "storage" ||
   strContains tl "service" || strContains tl "transport" || strContains tl "mileage" ||
   strContains tl "recovery" || strContains tl "authorization" || strContains tl "dollars" ||
   ((strContains tl "total" || strContains tl "key" || strContains tl "admin" ||
     strContains tl "processing") && tl.data.any Char.isDigit))

/-- One pattern family's pass over the content: every match becomes an
amount record whose `amount` is the captured group with commas stripped and
whose `context` is a ±30-character window around the match. -/
def familyAmounts (p : Pat) (approvedFlag : Bool) (content : String) :
    List AmountInfo :=
  (finditer p content).map (fun m =>
    { amount := stripCommas (groupStr content m),
      context := contextWindow content m.mstart m.mend 30,
      isExplicitlyApproved := approvedFlag,
      feeType := "" })

/-- All amounts extracted from one content string, in the order the six
pattern families run. -/
def extractAmounts (content : String) : List AmountInfo :=
  familyAmounts moneyPat false content ++
  familyAmounts dollarsPat false content ++
  familyAmounts approvedPat true content ++
  familyAmounts numericAmountPat false content ++
  familyAmounts costPat false content ++
  familyAmounts authorizedPat true content

/-- The per-update body of `extract_fee_information`'s loop: `none` when the
update is skipped (empty or over-long content, not fee-related, or no
amounts found). -/
def extractUpdate (u : RawUpdate) : Option FeeUpdate :=
  let content := if u.content ≠ "" then u.content else u.fullText
  if pyStrip content = "" || content.length > 5000 then none
  else if !isFeeRelated content then none
  else
    let amounts := extractAmounts content
    if amounts.isEmpty then none
    else
      some { date := u.date, type := u.type, user := u.user,
             content := String.mk (content.data.take 300),
             amounts := amounts,
             isApproved := strContains (lowerStr content) "approved" ||
                           strContains (lowerStr content) "authorization" ||
                           strContains (lowerStr content) "authorize",
             source := "Updates", feeLabel := "" }

/-- Embedding of `extract_fee_information`: at most 50 updates are processed. -/
def extractFeeInformation (updates : List RawUpdate) : List FeeUpdate :=
  (updates.take 50).filterMap extractUpdate

/-! ### `scan_for_key_fees` (server-upgradedv2.py, lines 2698-2766) -/

/-- The fee-type chain applied to each key-fee match's ±50-character
context. -/
def keyFeeType (context : String) : String :=
  let cl := lowerStr context
  if strContains cl "push" || strContains cl "key" || strContains cl "vehicle" then
    "Keys Fee"
  else if strContains cl "mile" || strContains cl "travel" || strContains cl "distance" ||
          strContains cl "fuel" || strContains cl "gas" then "Mileage/ Fuel"
  else if strContains cl "flat" || strContains cl "tow" || strContains cl "winch" ||
          strContains cl "rollback" then "Flatbed Fees"
  else if strContains cl "store" || strContains cl "storage" || strContains cl "impound" ||
          strContains cl "lot fee" then "Storage Fee"
  else if strContains cl "cr" || strContains cl "condition" || strContains cl "photo" ||
          strContains cl "picture" || strContains cl "inspection" then "CR AND PHOTOS FEE"
  else if strContains cl "purchase" || strContains cl "cost" || strContains cl "expense" then
    "Purchase Cost"
  else if strContains cl "client" then "Fee To Client"
  else "Unknown Fee"

/-- Embedding of `scan_for_key_fees`: run the five patterns in order; each match yields an
amount (group with commas stripped), a ±50-character context, and a fee type
derived from that context. -/
def scanForKeyFees (text : String) : List AmountInfo :=
  if text = "" then []
  else
    [keyPat1, keyPat2, keyPat3, keyPat4, keyPat5].flatMap (fun p =>
      (finditer p text).map (fun m =>
        let context := contextWindow text m.mstart m.mend 50
        { amount := stripCommas (groupStr text m),
          context := context,
          feeType := keyFeeType context,
          isExplicitlyApproved := false }))

/-! ### `generate_fees_table` (server-upgradedv2.py, lines 2456-2694)

The embedding starts at the source-normalization step (line 2510): the
optional repo-fee lookup prelude, when it succeeds, contributes one
`"Database"`-source update of a fixed shape to the input list. Output state
also stands for the returned dictionary; its `categorizedFees` and
`additionalFees` aliases equal `predefined` and `other`. -/

/-- The mutable state of the generation loop: the seen-key set and the four
tables. -/
structure GenState where
  seen : List (String × String × String) := []
  allFees : List FeeEntry := []
  predefined : List FeeEntry := []
  keys : List FeeEntry := []
  other : List FeeEntry := []
deriving Repr, DecidableEq

/-- Category resolution: `feeType` wins, then `feeLabel`, then
`"Unknown Fee"` (Python truthiness on the strings). -/
def resolveCategory (u : FeeUpdate) (a : AmountInfo) : String :=
  if a.feeType ≠ "" then a.feeType
  else if u.feeLabel ≠ "" then u.feeLabel
  else "Unknown Fee"

/-- The Keys-Fee test on the resolved category:
`category.lower() == 'keys fee' or category.lower() == 'key fee' or`
`'key' in category.lower()`. -/
def isKeysCategory (category : String) : Bool :=
  lowerStr category == "keys fee" || lowerStr category == "key fee" ||
  strContains (lowerStr category) "key"

/-- The category after Keys-Fee standardization and whitelist
canonicalization — the value entering the dedup key and the entry. -/
def finalCategory (u : FeeUpdate) (a : AmountInfo) : String :=
  let c := resolveCategory u a
  if isKeysCategory c then "Keys Fee"
  else
    match matchPredefined preApprovedFees (lowerStr c) with
    | some m => m
    | none => c

/-- The deduplication key of one candidate:
the amount formatted to two decimals, the normalized category, and the
normalized context. -/
def mkKey (u : FeeUpdate) (a : AmountInfo) (v : ℚ) : String × String × String :=
  (fmt2 v, normalize (finalCategory u a), normalize (pyStrip a.context))

/-- The dedup key a candidate would claim, or `none` when the candidate is
skipped (unparseable or non-positive amount). -/
def candidateKey (u : FeeUpdate) (a : AmountInfo) :
    Option (String × String × String) :=
  match pyFloat? a.amount with
  | none => none
  | some v => if v ≤ 0 then none else some (mkKey u a v)

/-- The fee entry built for a surviving candidate of value `v`. In the
Other-table branch the code mutates the entry's `category` back to the
original category after appending it, so the entry seen by both `allFees`
and `other` carries the original category; `mkEntry` returns the
pre-mutation entry. -/
def mkEntry (u : FeeUpdate) (a : AmountInfo) (v : ℚ) : FeeEntry :=
  let category := finalCategory u a
  let original := resolveCategory u a
  let isKeys := isKeysCategory original
  let isPre := !isKeys && (matchPredefined preApprovedFees (lowerStr original)).isSome
  { date := u.date,
    amount := "$" ++ fmt2 v,
    type := u.type,
    approver := u.user,
    referenceSentence := pyStrip a.context,
    approved := if u.isApproved || a.isExplicitlyApproved ||
                   u.source == "Database" || isPre then "Yes" else "Likely",
    category := category,
    source := u.source,
    originalCategory := original,
    matched := u.source == "Database" || isPre || isKeys,
    matchedAs := if u.source == "Database" then "Repo Fee Matrix"
                 else if isPre then "Pre-approved Non-Repo"
                 else if isKeys then "Keys Fee"
                 else "Unmatched" }

/-- Process one amount of one update: parse, positivity check, dedup, entry
construction, and routing. Database-source entries claim the key but are
excluded from every table. -/
def processAmount (st : GenState) (u : FeeUpdate) (a : AmountInfo) : GenState :=
  match pyFloat? a.amount with
  | none => st
  | some v =>
    if v ≤ 0 then st
    else
      let key := mkKey u a v
      if key ∈ st.seen then st
      else
        let seen' := key :: st.seen
        if u.source = "Database" then { st with seen := seen' }
        else
          let e := mkEntry u a v
          if isKeysCategory (resolveCategory u a) then
            { st with seen := seen', allFees := st.allFees ++ [e],
                      keys := st.keys ++ [e] }
          else if (matchPredefined preApprovedFees (lowerStr (resolveCategory u a))).isSome then
            { st with seen := seen', allFees := st.allFees ++ [e],
                      predefined := st.predefined ++ [e] }
          else
            let e' := { e with category := e.originalCategory }
            { st with seen := seen', allFees := st.allFees ++ [e'],
                      other := st.other ++ [e'] }

/-- Process one update: fold over its amounts. -/
def processUpdate (st : GenState) (u : FeeUpdate) : GenState :=
  u.amounts.foldl (fun s a => processAmount s u a) st

/-- The `"Case Page"` → `"Updates"` source rename. -/
def renameSource (u : FeeUpdate) : FeeUpdate :=
  if u.source = "Case Page" then { u with source := "Updates" } else u

/-- Priority order on updates, the key of Python's stable `sorted`. -/
def updLE (a b : FeeUpdate) : Prop :=
  priorityOf a.source ≤ priorityOf b.source

instance : DecidableRel updLE := fun _ _ => Nat.decLe _ _

instance : IsTotal FeeUpdate updLE := ⟨fun _ _ => Nat.le_total _ _⟩

instance : IsTrans FeeUpdate updLE := ⟨fun _ _ _ => Nat.le_trans⟩

/-- Embedding of `generate_fees_table` from the source-normalization step on: rename
`"Case Page"` sources, stable-sort by source priority, and fold the
deduplicating categorization loop. -/
def generateFeesTable (updates : List FeeUpdate) : GenState :=
  ((updates.map renameSource).insertionSort updLE).foldl processUpdate {}

/-! ### The standalone Deduplicator component

`generate_fees_table` fuses deduplication with categorization. The
Deduplicator itself — stable priority sort followed by first-claim-per-key —
acts on flattened fee-record candidates: a candidate's source, parsed
amount, final category and stripped context. (Sorting the nested update
list by source priority and flattening coincides with stable-sorting the
flattened candidates, because all amounts of an update share its source.) -/

/-- A flattened fee-record candidate entering deduplication. -/
structure DedupRec where
  source : String
  amount : ℚ
  category : String
  context : String
deriving Repr, DecidableEq

/-- The dedup key of a candidate. -/
def keyOf (r : DedupRec) : String × String × String :=
  (fmt2 r.amount, normalize r.category, normalize r.context)

/-- Priority order on candidates. -/
def dedupLE (a b : DedupRec) : Prop :=
  priorityOf a.source ≤ priorityOf b.source

instance : DecidableRel dedupLE := fun _ _ => Nat.decLe _ _

instance : IsTotal DedupRec dedupLE := ⟨fun _ _ => Nat.le_total _ _⟩

instance : IsTrans DedupRec dedupLE := ⟨fun _ _ _ => Nat.le_trans⟩

/-- First-claim-per-key filtering: a candidate whose key was already seen is
dropped, otherwise it is kept and claims its key. -/
def dedupPass (seen : List (String × String × String)) :
    List DedupRec → List DedupRec
  | [] => []
  | r :: rs =>
    if keyOf r ∈ seen then dedupPass seen rs
    else r :: dedupPass (keyOf r :: seen) rs

/-- The Deduplicator: stable sort by provenance priority, then
first-claim-per-key. -/
def deduplicator (xs : List DedupRec) : List DedupRec :=
  dedupPass [] (xs.insertionSort dedupLE)

/-! ### `lookup_repo_fee` (server-upgradedv2.py, lines 2996-3132;
lookup_repo_fee_simple.py, lines 75-264)

The relational store is modelled as lists of rows per table; a `SELECT
TOP 1 ... WHERE name = ?` is the first row (in table order) with that exact
name, and the three-way `JOIN` of the fee query requires matching rows in
the joined tables. A failed connection is the `none` connection; all other
failure paths return `none` exactly where the Python function does (its
`except` handler turns any fault into `None`, never re-raising). -/

/-- A row of `dbo.RDN_Client`. -/
structure ClientRow where
  id : ℤ
  client_name : String
deriving Repr, DecidableEq

/-- A row of `dbo.Lienholder`. -/
structure LienholderRow where
  id : ℤ
  lienholder_name : String
deriving Repr, DecidableEq

/-- A row of `dbo.FeeType`. -/
structure FeeTypeRow where
  id : ℤ
  fee_type_name : String
deriving Repr, DecidableEq

/-- A row of `dbo.FeeDetails2`. -/
structure FeeDetailRow where
  fd_id : ℤ
  client_id : ℤ
  lh_id : ℤ
  ft_id : ℤ
  amount : ℚ
deriving Repr, DecidableEq

/-- The relational store. -/
structure Db where
  clients : List ClientRow
  lienholders : List LienholderRow
  feeTypes : List FeeTypeRow
  feeDetails : List FeeDetailRow
deriving Repr, DecidableEq

/-- Query `SELECT TOP 1 id FROM dbo.RDN_Client WHERE client_name = ?`. -/
def findClientId (db : Db) (name : String) : Option ℤ :=
  (db.clients.find? (fun r => r.client_name == name)).map (fun r => r.id)

/-- Query `SELECT TOP 1 id FROM dbo.Lienholder WHERE lienholder_name = ?`. -/
def findLienholderId (db : Db) (name : String) : Option ℤ :=
  (db.lienholders.find? (fun r => r.lienholder_name == name)).map (fun r => r.id)

/-- Query `SELECT TOP 1 id FROM dbo.FeeType WHERE fee_type_name = ?`. -/
def findFeeTypeId (db : Db) (name : String) : Option ℤ :=
  (db.feeTypes.find? (fun r => r.fee_type_name == name)).map (fun r => r.id)

/-- One row of the joined fee query. -/
structure JoinedFee where
  fd_id : ℤ
  client_name : String
  lienholder_name : String
  fee_type : String
  amount : ℚ
deriving Repr, DecidableEq

/-- The inner joins of the fee query: the names behind a fee-detail row's
foreign keys, if all three joined rows exist. -/
def joinRow (db : Db) (fd : FeeDetailRow) : Option JoinedFee :=
  match db.clients.find? (fun c => c.id == fd.client_id),
        db.lienholders.find? (fun l => l.id == fd.lh_id),
        db.feeTypes.find? (fun f => f.id == fd.ft_id) with
  | some c, some l, some f =>
    some { fd_id := fd.fd_id, client_name := c.client_name,
           lienholder_name := l.lienholder_name, fee_type := f.fee_type_name,
           amount := fd.amount }
  | _, _, _ => none

/-- The fee query `SELECT ... FROM FeeDetails2 JOIN ... WHERE client_id = ?`
`AND lh_id = ? AND ft_id = ?` with `fetchone()`: first matching joined row
in table order. -/
def feeQuery (db : Db) (cid lid fid : ℤ) : Option JoinedFee :=
  (db.feeDetails.filter (fun fd =>
    fd.client_id == cid && fd.lh_id == lid && fd.ft_id == fid)).findSome?
    (fun fd => joinRow db fd)

/-- The dictionary `lookup_repo_fee` returns; `message` is present only on
the fallback path. -/
structure RepoFeeResult where
  fd_id : ℤ
  client_name : String
  lienholder_name : String
  fee_type : String
  amount : ℚ
  is_fallback : Bool
  message : Option String
deriving Repr, DecidableEq

/-- The fallback-path message: the f-string quoting the input lienholder
name, then " specific fee not found. Using Standard amount.". -/
def stdFallbackMsg (lienholderName : String) : String :=
  "Lienholder " ++ sq ++ lienholderName ++ sq ++
  " specific fee not found. Using Standard amount."

/-- The result built from a primary-lookup row. -/
def mkPrimaryResult (j : JoinedFee) : RepoFeeResult :=
  { fd_id := j.fd_id, client_name := j.client_name,
    lienholder_name := j.lienholder_name, fee_type := j.fee_type,
    amount := j.amount, is_fallback := false, message := none }

/-- The result built from a fallback row: the joined (Standard) lienholder
name with `" (Standard Fallback)"` appended, `is_fallback = true`, and the
explanatory message quoting the original input name. -/
def mkFallbackResult (j : JoinedFee) (lienholderName : String) : RepoFeeResult :=
  { fd_id := j.fd_id, client_name := j.client_name,
    lienholder_name := j.lienholder_name ++ " (Standard Fallback)",
    fee_type := j.fee_type, amount := j.amount, is_fallback := true,
    message := some (stdFallbackMsg lienholderName) }

/-- Step 2+3 of `lookup_repo_fee`: the primary lookup, run only when the
lienholder id resolved and is truthy (`if lienholder_id:` — a zero id is
falsy in Python). An unresolved lienholder produces `none` here and falls
through to the fallback. -/
def primaryStage (db : Db) (cid fid : ℤ) (lienholderId : Option ℤ) :
    Option JoinedFee :=
  match lienholderId with
  | some lid => if lid = 0 then none else feeQuery db cid lid fid
  | none => none

/-- Step 4 of `lookup_repo_fee`: resolve the lienholder literally named
`"Standard"` and requery; a miss at either point is a no-match. -/
def fallbackStage (db : Db) (cid fid : ℤ) (lienholderName : String) :
    Option RepoFeeResult :=
  match findLienholderId db "Standard" with
  | none => none
  | some stdId =>
    match feeQuery db cid stdId fid with
    | some j => some (mkFallbackResult j lienholderName)
    | none => none

/-- Embedding of `lookup_repo_fee(client_name, lienholder_name, fee_type_name)`. A `none`
connection models `get_db_connection()` failing; an unresolved client or fee
type aborts with `none`; the primary stage feeds the fallback stage exactly
as in the source (the code resolves the lienholder id between the client and
fee-type resolutions, which is observationally the same as resolving it at
its first use below). -/
def lookupRepoFee (conn : Option Db) (clientName lienholderName feeTypeName : String) :
    Option RepoFeeResult :=
  match conn with
  | none => none
  | some db =>
    match findClientId db clientName with
    | none => none
    | some clientId =>
      match findFeeTypeId db feeTypeName with
      | none => none
      | some feeTypeId =>
        match primaryStage db clientId feeTypeId (findLienholderId db lienholderName) with
        | some j => some (mkPrimaryResult j)
        | none => fallbackStage db clientId feeTypeId lienholderName

/-! ### Concrete fixtures used by counterexamples and witnesses -/

/-- The Scenario-A block, as a raw scraped update with Updates provenance. -/
def keyBlockRaw : RawUpdate :=
  { content := "push to start key made for $45.00 on the vehicle",
    date := "01/02/2025", user := "Agent" }

/-- A raw update whose only monetary mention is `$0`. -/
def zeroFeeRaw : RawUpdate := { content := "fee $0" }

/-- A raw update with a comma-grouped monetary value. -/
def commaFeeRaw : RawUpdate := { content := "fee $1,250.00" }

/-- Shared context of the Database/Updates duplicate pair. -/
def pairCtx : String := "flatbed fee $120.00 towed"

/-- The shared amount record of the duplicate pair. -/
def pairAmount : AmountInfo :=
  { amount := "120.00", context := pairCtx, feeType := "Flatbed Fees" }

/-- Database-provenance candidate of the duplicate pair. -/
def pairDbUpdate : FeeUpdate :=
  { source := "Database", date := "d1", user := "System", isApproved := true,
    amounts := [pairAmount] }

/-- Updates-provenance candidate of the duplicate pair. -/
def pairUpUpdate : FeeUpdate :=
  { source := "Updates", date := "d2", user := "Agent",
    amounts := [pairAmount] }

/-- Shared context of the second (storage) duplicate pair. -/
def storCtx : String := "storage fee $95.00 daily"

/-- The shared amount record of the storage pair. -/
def storAmount : AmountInfo :=
  { amount := "95.00", context := storCtx, feeType := "Storage Fee" }

/-- Database-provenance candidate of the storage pair. -/
def storDbUpdate : FeeUpdate :=
  { source := "Database", date := "s1", user := "System", isApproved := true,
    amounts := [storAmount] }

/-- Updates-provenance candidate of the storage pair. -/
def storUpUpdate : FeeUpdate :=
  { source := "Updates", date := "s2", user := "Agent",
    amounts := [storAmount] }

/-- A Database-provenance flat dedup candidate. -/
def recDb : DedupRec :=
  { source := "Database", amount := 120, category := "Flatbed Fees",
    context := pairCtx }

/-- An Updates-provenance flat dedup candidate with the same key. -/
def recUp : DedupRec :=
  { source := "Updates", amount := 120, category := "Flatbed Fees",
    context := pairCtx }

/-- A second Updates-provenance candidate with the same key (tie case). -/
def recUp2 : DedupRec :=
  { source := "Updates", amount := 120, category := "Flatbed Fees ",
    context := "  flatbed fee $120.00 towed " }

/-- The store of the fallback counterexample: no `"Acme Bank"` lienholder,
a `"Standard"` one, and one fee row for (ClientX, Standard, Involuntary
Repo). -/
def fallbackDb : Db :=
  { clients := [⟨1, "ClientX"⟩],
    lienholders := [⟨2, "Standard"⟩],
    feeTypes := [⟨3, "Involuntary Repo"⟩],
    feeDetails := [⟨10, 1, 2, 3, 300⟩] }

/-- A store with a lienholder-specific row, used by lookup witnesses: Acme
Bank resolves but has no fee row, Standard has one. -/
def witnessDb : Db :=
  { clients := [⟨1, "Acme"⟩],
    lienholders := [⟨5, "Acme Bank"⟩, ⟨2, "Standard"⟩],
    feeTypes := [⟨3, "Involuntary Repo"⟩],
    feeDetails := [⟨11, 1, 2, 3, 250⟩] }

/-- The dedup key claimed by both storage candidates. -/
def storKey : String × String × String :=
  ("95.00", "storage fee", "storage fee $95.00 daily")

/-- The entry the storage Updates-candidate produces when processed alone. -/
def storEntry : FeeEntry :=
  { date := "s2", amount := "$95.00", type := "", approver := "Agent",
    referenceSentence := "storage fee $95.00 daily", approved := "Likely",
    category := "Storage Fee", source := "Updates",
    originalCategory := "Storage Fee", matched := false,
    matchedAs := "Unmatched" }

/-! ## Theorems

General helper lemmas first, then one theorem per specification claim
(with its witness or counterexample where required). -/

/-- A predicate preserved by every step of a fold holds of the result. -/
theorem foldl_preserve {α : Type _} {β : Type _} (P : α → Prop) (f : α → β → α)
    (hf : ∀ s x, P s → P (f s x)) :
    ∀ (l : List β) (s : α), P s → P (l.foldl f s) := by
  intro l
  induction l with
  | nil => intro s hs; exact hs
  | cons y ys ih => intro s hs; exact ih (f s y) (hf s y hs)

/-- A predicate established by some element of the fold and preserved by
every step holds of the result. -/
theorem foldl_establish {α : Type _} {β : Type _} (P : α → Prop) (f : α → β → α)
    (hf : ∀ s x, P s → P (f s x)) (x : β) (hx : ∀ s, P (f s x)) :
    ∀ (l : List β) (s : α), x ∈ l → P (l.foldl f s) := by
  intro l
  induction l with
  | nil => intro s hs; cases hs
  | cons y ys ih =>
    intro s hs
    rcases List.mem_cons.mp hs with h | h
    · subst h
      exact foldl_preserve P f hf ys (f s x) (hx s)
    · exact ih (f s y) h

/-! ### Lemmas about `dedupPass` and the Deduplicator -/

/-- Every survivor's key was unseen on entry. -/
theorem keyOf_not_mem_seen_of_mem_dedupPass :
    ∀ (l : List DedupRec) (seen : List (String × String × String)) (r : DedupRec),
      r ∈ dedupPass seen l → keyOf r ∉ seen := by
  intro l
  induction l with
  | nil => intro seen r hr; simp [dedupPass] at hr
  | cons x xs ih =>
    intro seen r hr
    by_cases hx : keyOf x ∈ seen
    · rw [dedupPass, if_pos hx] at hr
      exact ih seen r hr
    · rw [dedupPass, if_neg hx] at hr
      rcases List.mem_cons.mp hr with h | h
      · subst h; exact hx
      · intro hcon
        exact ih (keyOf x :: seen) r h (List.mem_cons_of_mem _ hcon)

/-- Survivors come from the input list. -/
theorem mem_of_mem_dedupPass :
    ∀ (l : List DedupRec) (seen : List (String × String × String)) (r : DedupRec),
      r ∈ dedupPass seen l → r ∈ l := by
  intro l
  induction l with
  | nil => intro seen r hr; simp [dedupPass] at hr
  | cons x xs ih =>
    intro seen r hr
    by_cases hx : keyOf x ∈ seen
    · rw [dedupPass, if_pos hx] at hr
      exact List.mem_cons_of_mem _ (ih seen r hr)
    · rw [dedupPass, if_neg hx] at hr
      rcases List.mem_cons.mp hr with h | h
      · exact h ▸ List.mem_cons_self x xs
      · exact List.mem_cons_of_mem _ (ih (keyOf x :: seen) r h)

/-- The pass `dedupPass` yields a sublist of its input. -/
theorem dedupPass_sublist :
    ∀ (l : List DedupRec) (seen : List (String × String × String)),
      List.Sublist (dedupPass seen l) l := by
  intro l
  induction l with
  | nil => intro seen; simp [dedupPass]
  | cons x xs ih =>
    intro seen
    by_cases hx : keyOf x ∈ seen
    · rw [dedupPass, if_pos hx]
      exact (ih seen).cons x
    · rw [dedupPass, if_neg hx]
      exact (ih (keyOf x :: seen)).cons₂ x

/-- A key already seen never occurs among the survivors' keys. -/
theorem count_key_dedupPass_of_seen :
    ∀ (l : List DedupRec) (seen : List (String × String × String)) (k),
      k ∈ seen → ((dedupPass seen l).map keyOf).count k = 0 := by
  intro l
  induction l with
  | nil => intro seen k _; simp [dedupPass]
  | cons x xs ih =>
    intro seen k hk
    by_cases hx : keyOf x ∈ seen
    · rw [dedupPass, if_pos hx]
      exact ih seen k hk
    · rw [dedupPass, if_neg hx]
      have hne : keyOf x ≠ k := fun h => hx (h ▸ hk)
      simp only [List.map_cons, List.count_cons]
      rw [ih (keyOf x :: seen) k (List.mem_cons_of_mem _ hk)]
      simp [hne]

/-- A key carried by some candidate and not yet seen is claimed by exactly
one survivor. -/
theorem count_key_dedupPass_eq_one :
    ∀ (l : List DedupRec) (seen : List (String × String × String)) (k),
      k ∉ seen → (∃ r ∈ l, keyOf r = k) →
      ((dedupPass seen l).map keyOf).count k = 1 := by
  intro l
  induction l with
  | nil =>
    intro seen k _ hex
    rcases hex with ⟨r, hr, _⟩
    cases hr
  | cons x xs ih =>
    intro seen k hk hex
    by_cases hx : keyOf x ∈ seen
    · rw [dedupPass, if_pos hx]
      rcases hex with ⟨r, hr, hkr⟩
      rcases List.mem_cons.mp hr with h | h
      · exact absurd (hkr ▸ (h ▸ hx)) hk
      · exact ih seen k hk ⟨r, h, hkr⟩
    · rw [dedupPass, if_neg hx]
      by_cases hxk : keyOf x = k
      · subst hxk
        simp only [List.map_cons, List.count_cons]
        rw [count_key_dedupPass_of_seen xs (keyOf x :: seen) (keyOf x)
          (List.mem_cons_self _ _)]
        simp
      · simp only [List.map_cons, List.count_cons]
        have hknotin : k ∉ keyOf x :: seen := by
          intro hc
          rcases List.mem_cons.mp hc with h | h
          · exact hxk h.symm
          · exact hk h
        have hone : ((dedupPass (keyOf x :: seen) xs).map keyOf).count k = 1 := by
          rcases hex with ⟨r, hr, hkr⟩
          rcases List.mem_cons.mp hr with h | h
          · exact absurd (h ▸ hkr) hxk
          · exact ih (keyOf x :: seen) k hknotin ⟨r, h, hkr⟩
        rw [hone]
        simp [beq_iff_eq, hxk]

/-- Among a priority-sorted candidate list, a survivor's priority is minimal
for its key. -/
theorem dedupPass_min_priority :
    ∀ (l : List DedupRec) (seen : List (String × String × String)),
      l.Sorted dedupLE →
      ∀ r s, r ∈ dedupPass seen l → s ∈ l → keyOf s = keyOf r →
        keyOf s ∉ seen → dedupLE r s := by
  intro l
  induction l with
  | nil => intro seen _ r s hr _ _ _; simp [dedupPass] at hr
  | cons x xs ih =>
    intro seen hsort r s hr hs hk hks
    have hsort' : xs.Sorted dedupLE := hsort.of_cons
    have hhead : ∀ b ∈ xs, dedupLE x b := (List.sorted_cons.mp hsort).1
    by_cases hx : keyOf x ∈ seen
    · rw [dedupPass, if_pos hx] at hr
      rcases List.mem_cons.mp hs with h | h
      · subst h
        exact absurd hx hks
      · exact ih seen hsort' r s hr h hk hks
    · rw [dedupPass, if_neg hx] at hr
      rcases List.mem_cons.mp hr with hrx | hrr
      · subst hrx
        rcases List.mem_cons.mp hs with h | h
        · subst h; exact Nat.le_refl _
        · exact hhead s h
      · have hrk : keyOf r ∉ keyOf x :: seen :=
          keyOf_not_mem_seen_of_mem_dedupPass xs (keyOf x :: seen) r hrr
        rcases List.mem_cons.mp hs with h | h
        · exfalso
          apply hrk
          rw [← hk, h]
          exact List.mem_cons_self _ _
        · refine ih (keyOf x :: seen) hsort' r s hrr h hk ?_
          rw [hk]
          exact hrk

/-- The survivors' keys are pairwise distinct. -/
theorem nodup_keys_dedupPass :
    ∀ (l : List DedupRec) (seen : List (String × String × String)),
      ((dedupPass seen l).map keyOf).Nodup := by
  intro l
  induction l with
  | nil => intro seen; simp [dedupPass]
  | cons x xs ih =>
    intro seen
    by_cases hx : keyOf x ∈ seen
    · rw [dedupPass, if_pos hx]; exact ih seen
    · rw [dedupPass, if_neg hx]
      simp only [List.map_cons, List.nodup_cons]
      refine ⟨?_, ih (keyOf x :: seen)⟩
      intro hmem
      rcases List.mem_map.mp hmem with ⟨r, hr, hkr⟩
      exact keyOf_not_mem_seen_of_mem_dedupPass xs (keyOf x :: seen) r hr
        (hkr ▸ List.mem_cons_self _ _)

/-- On a list of fresh, pairwise-distinct keys, `dedupPass` is the
identity. -/
theorem dedupPass_eq_self :
    ∀ (l : List DedupRec) (seen : List (String × String × String)),
      (l.map keyOf).Nodup → (∀ r ∈ l, keyOf r ∉ seen) →
      dedupPass seen l = l := by
  intro l
  induction l with
  | nil => intro seen _ _; simp [dedupPass]
  | cons x xs ih =>
    intro seen hnd hfresh
    have hx : keyOf x ∉ seen := hfresh x (List.mem_cons_self _ _)
    rw [dedupPass, if_neg hx]
    simp only [List.map_cons, List.nodup_cons] at hnd
    congr 1
    refine ih (keyOf x :: seen) hnd.2 ?_
    intro r hr
    intro hc
    rcases List.mem_cons.mp hc with h | h
    · exact hnd.1 (h ▸ List.mem_map_of_mem keyOf hr)
    · exact hfresh r (List.mem_cons_of_mem _ hr) h

/-- The Deduplicator's output is still sorted by priority. -/
theorem deduplicator_sorted (xs : List DedupRec) :
    (deduplicator xs).Sorted dedupLE :=
  (List.sorted_insertionSort dedupLE xs).sublist
    (dedupPass_sublist (xs.insertionSort dedupLE) [])

/-- Two-element computation of the Deduplicator when the first element has
lower-or-equal priority: the stable sort keeps the order and the second
claimant of the key is dropped. -/
theorem deduplicator_pair_first (r1 r2 : DedupRec)
    (hk : keyOf r1 = keyOf r2)
    (hp : priorityOf r1.source ≤ priorityOf r2.source) :
    deduplicator [r1, r2] = [r1] := by
  have hsort : List.insertionSort dedupLE [r1, r2] = [r1, r2] := by
    show List.orderedInsert dedupLE r1 (List.orderedInsert dedupLE r2 []) = _
    rw [List.orderedInsert_nil, List.orderedInsert,
      if_pos (show dedupLE r1 r2 from hp)]
  rw [deduplicator, hsort, dedupPass,
    if_neg (by simp : keyOf r1 ∉ ([] : List (String × String × String))),
    dedupPass, if_pos (by rw [← hk]; exact List.mem_cons_self _ _), dedupPass]

/-- Two-element computation when the second element has strictly higher
priority: the sort moves it first and the other claimant is dropped. -/
theorem deduplicator_pair_second (r1 r2 : DedupRec)
    (hk : keyOf r1 = keyOf r2)
    (hp : ¬ priorityOf r1.source ≤ priorityOf r2.source) :
    deduplicator [r1, r2] = [r2] := by
  have hsort : List.insertionSort dedupLE [r1, r2] = [r2, r1] := by
    show List.orderedInsert dedupLE r1 (List.orderedInsert dedupLE r2 []) = _
    rw [List.orderedInsert_nil, List.orderedInsert,
      if_neg (show ¬ dedupLE r1 r2 from hp), List.orderedInsert_nil]
  rw [deduplicator, hsort, dedupPass,
    if_neg (by simp : keyOf r2 ∉ ([] : List (String × String × String))),
    dedupPass, if_pos (by rw [hk]; exact List.mem_cons_self _ _), dedupPass]

/-! ### Invariants of the `generate_fees_table` loop -/

/-- Case split skeleton for `processAmount`: the next state is the old one,
a pure seen-extension (Database source), or the old one with one entry
appended to `allFees` and to exactly one of the three tables. -/
theorem processAmount_cases (st : GenState) (u : FeeUpdate) (a : AmountInfo) :
    processAmount st u a = st ∨
    (∃ k, processAmount st u a = { st with seen := k :: st.seen }) ∨
    (∃ k v, ¬ v ≤ 0 ∧ u.source ≠ "Database" ∧
      (processAmount st u a =
        { st with seen := k :: st.seen,
                  allFees := st.allFees ++ [mkEntry u a v],
                  keys := st.keys ++ [mkEntry u a v] } ∨
       processAmount st u a =
        { st with seen := k :: st.seen,
                  allFees := st.allFees ++ [mkEntry u a v],
                  predefined := st.predefined ++ [mkEntry u a v] } ∨
       processAmount st u a =
        { st with seen := k :: st.seen,
                  allFees := st.allFees ++
                    [{ mkEntry u a v with category := (mkEntry u a v).originalCategory }],
                  other := st.other ++
                    [{ mkEntry u a v with category := (mkEntry u a v).originalCategory }] })) := by
  rw [processAmount]
  cases hpf : pyFloat? a.amount with
  | none => exact Or.inl rfl
  | some v =>
    simp only
    by_cases hv : v ≤ 0
    · rw [if_pos hv]; exact Or.inl rfl
    · rw [if_neg hv]
      by_cases hseen : mkKey u a v ∈ st.seen
      · rw [if_pos hseen]; exact Or.inl rfl
      · rw [if_neg hseen]
        by_cases hdb : u.source = "Database"
        · rw [if_pos hdb]
          exact Or.inr (Or.inl ⟨mkKey u a v, rfl⟩)
        · rw [if_neg hdb]
          refine Or.inr (Or.inr ⟨mkKey u a v, v, hv, hdb, ?_⟩)
          by_cases hkeys : isKeysCategory (resolveCategory u a)
          · rw [if_pos hkeys]; exact Or.inl rfl
          · rw [if_neg hkeys]
            by_cases hpre : (matchPredefined preApprovedFees (lowerStr (resolveCategory u a))).isSome
            · rw [if_pos hpre]; exact Or.inr (Or.inl rfl)
            · rw [if_neg hpre]; exact Or.inr (Or.inr rfl)

/-- The positive-amount shape of every entry `processAmount` appends. -/
theorem processAmount_entry_amount (u : FeeUpdate) (a : AmountInfo) (v : ℚ) :
    (mkEntry u a v).amount = "$" ++ fmt2 v := rfl

/-- The source carried by every entry `processAmount` appends. -/
theorem mkEntry_source (u : FeeUpdate) (a : AmountInfo) (v : ℚ) :
    (mkEntry u a v).source = u.source := rfl

/-- Renaming a source leaves the amounts untouched. -/
theorem renameSource_amounts (u : FeeUpdate) :
    (renameSource u).amounts = u.amounts := by
  unfold renameSource; split <;> rfl

/-- A candidate's dedup key does not depend on its source. -/
theorem candidateKey_rename (u : FeeUpdate) (a : AmountInfo) :
    candidateKey (renameSource u) a = candidateKey u a := by
  unfold renameSource; split <;> rfl

/-- The step `processAmount` never removes a seen key. -/
theorem processAmount_seen_mono (st : GenState) (u : FeeUpdate) (a : AmountInfo)
    (k : String × String × String) (hk : k ∈ st.seen) :
    k ∈ (processAmount st u a).seen := by
  rcases processAmount_cases st u a with h | ⟨k', h⟩ | ⟨k', v, _, _, h | h | h⟩ <;>
    rw [h] <;>
    first
      | exact hk
      | exact List.mem_cons_of_mem _ hk

/-- A valid candidate's key is seen after its `processAmount` step. -/
theorem processAmount_key_established (st : GenState) (u : FeeUpdate)
    (a : AmountInfo) (k : String × String × String)
    (hk : candidateKey u a = some k) :
    k ∈ (processAmount st u a).seen := by
  cases hpf : pyFloat? a.amount with
  | none =>
    simp only [candidateKey, hpf] at hk
    exact Option.noConfusion hk
  | some v =>
    simp only [candidateKey, hpf] at hk
    by_cases hv : v ≤ 0
    · rw [if_pos hv] at hk; cases hk
    · rw [if_neg hv] at hk
      injection hk with hk
      subst hk
      unfold processAmount
      simp only [hpf]
      rw [if_neg hv]
      by_cases hseen : mkKey u a v ∈ st.seen
      · rw [if_pos hseen]; exact hseen
      · rw [if_neg hseen]
        by_cases hdb : u.source = "Database"
        · rw [if_pos hdb]; exact List.mem_cons_self _ _
        · rw [if_neg hdb]
          by_cases hkeys : isKeysCategory (resolveCategory u a)
          · rw [if_pos hkeys]; exact List.mem_cons_self _ _
          · rw [if_neg hkeys]
            by_cases hpre :
              (matchPredefined preApprovedFees (lowerStr (resolveCategory u a))).isSome
            · rw [if_pos hpre]; exact List.mem_cons_self _ _
            · rw [if_neg hpre]; exact List.mem_cons_self _ _

/-- The step `processAmount` preserves the counting balance between `allFees` and the
three tables. -/
theorem processAmount_count (st : GenState) (u : FeeUpdate) (a : AmountInfo)
    (h : ∀ x : FeeEntry, st.allFees.count x =
      st.predefined.count x + st.keys.count x + st.other.count x) :
    ∀ x : FeeEntry, (processAmount st u a).allFees.count x =
      (processAmount st u a).predefined.count x +
      (processAmount st u a).keys.count x +
      (processAmount st u a).other.count x := by
  rcases processAmount_cases st u a with hc | ⟨k, hc⟩ | ⟨k, v, _, _, hc | hc | hc⟩ <;>
    rw [hc] <;> intro x
  · exact h x
  · exact h x
  · simp only [List.count_append]; rw [h x]; omega
  · simp only [List.count_append]; rw [h x]; omega
  · simp only [List.count_append]; rw [h x]; omega

/-- Membership in a list with one element appended. -/
theorem mem_append_singleton {α : Type _} {e x : α} {l : List α}
    (h : e ∈ l ++ [x]) : e ∈ l ∨ e = x := by
  rcases List.mem_append.mp h with h | h
  · exact Or.inl h
  · exact Or.inr (List.mem_singleton.mp h)

/-- The step `processAmount` preserves the absence of Database-source entries from
all four tables. -/
theorem processAmount_no_db (st : GenState) (u : FeeUpdate) (a : AmountInfo)
    (h : ∀ e : FeeEntry,
      (e ∈ st.allFees ∨ e ∈ st.predefined ∨ e ∈ st.keys ∨ e ∈ st.other) →
      e.source ≠ "Database") :
    ∀ e : FeeEntry,
      (e ∈ (processAmount st u a).allFees ∨ e ∈ (processAmount st u a).predefined ∨
       e ∈ (processAmount st u a).keys ∨ e ∈ (processAmount st u a).other) →
      e.source ≠ "Database" := by
  rcases processAmount_cases st u a with hc | ⟨k, hc⟩ | ⟨k, v, _, hdb, hc | hc | hc⟩ <;>
    rw [hc] <;> intro e he
  · exact h e he
  · exact h e he
  · rcases he with he | he | he | he
    · rcases mem_append_singleton he with he' | rfl
      · exact h e (Or.inl he')
      · exact hdb
    · exact h e (Or.inr (Or.inl he))
    · rcases mem_append_singleton he with he' | rfl
      · exact h e (Or.inr (Or.inr (Or.inl he')))
      · exact hdb
    · exact h e (Or.inr (Or.inr (Or.inr he)))
  · rcases he with he | he | he | he
    · rcases mem_append_singleton he with he' | rfl
      · exact h e (Or.inl he')
      · exact hdb
    · rcases mem_append_singleton he with he' | rfl
      · exact h e (Or.inr (Or.inl he'))
      · exact hdb
    · exact h e (Or.inr (Or.inr (Or.inl he)))
    · exact h e (Or.inr (Or.inr (Or.inr he)))
  · rcases he with he | he | he | he
    · rcases mem_append_singleton he with he' | rfl
      · exact h e (Or.inl he')
      · exact hdb
    · exact h e (Or.inr (Or.inl he))
    · exact h e (Or.inr (Or.inr (Or.inl he)))
    · rcases mem_append_singleton he with he' | rfl
      · exact h e (Or.inr (Or.inr (Or.inr he')))
      · exact hdb

/-- The step `processAmount` preserves the positive-amount shape of every table
entry. -/
theorem processAmount_positive (st : GenState) (u : FeeUpdate) (a : AmountInfo)
    (h : ∀ e : FeeEntry,
      (e ∈ st.allFees ∨ e ∈ st.predefined ∨ e ∈ st.keys ∨ e ∈ st.other) →
      ∃ v : ℚ, 0 < v ∧ e.amount = "$" ++ fmt2 v) :
    ∀ e : FeeEntry,
      (e ∈ (processAmount st u a).allFees ∨ e ∈ (processAmount st u a).predefined ∨
       e ∈ (processAmount st u a).keys ∨ e ∈ (processAmount st u a).other) →
      ∃ v : ℚ, 0 < v ∧ e.amount = "$" ++ fmt2 v := by
  rcases processAmount_cases st u a with hc | ⟨k, hc⟩ | ⟨k, v, hv, _, hc | hc | hc⟩ <;>
    rw [hc] <;> intro e he
  · exact h e he
  · exact h e he
  · rcases he with he | he | he | he
    · rcases mem_append_singleton he with he' | rfl
      · exact h e (Or.inl he')
      · exact ⟨v, lt_of_not_le hv, rfl⟩
    · exact h e (Or.inr (Or.inl he))
    · rcases mem_append_singleton he with he' | rfl
      · exact h e (Or.inr (Or.inr (Or.inl he')))
      · exact ⟨v, lt_of_not_le hv, rfl⟩
    · exact h e (Or.inr (Or.inr (Or.inr he)))
  · rcases he with he | he | he | he
    · rcases mem_append_singleton he with he' | rfl
      · exact h e (Or.inl he')
      · exact ⟨v, lt_of_not_le hv, rfl⟩
    · rcases mem_append_singleton he with he' | rfl
      · exact h e (Or.inr (Or.inl he'))
      · exact ⟨v, lt_of_not_le hv, rfl⟩
    · exact h e (Or.inr (Or.inr (Or.inl he)))
    · exact h e (Or.inr (Or.inr (Or.inr he)))
  · rcases he with he | he | he | he
    · rcases mem_append_singleton he with he' | rfl
      · exact h e (Or.inl he')
      · exact ⟨v, lt_of_not_le hv, rfl⟩
    · exact h e (Or.inr (Or.inl he))
    · exact h e (Or.inr (Or.inr (Or.inl he)))
    · rcases mem_append_singleton he with he' | rfl
      · exact h e (Or.inr (Or.inr (Or.inr he')))
      · exact ⟨v, lt_of_not_le hv, rfl⟩

/-- Any per-step invariant of `processAmount` holds for the whole
generator. -/
theorem generateFeesTable_invariant (P : GenState → Prop)
    (hstep : ∀ st u a, P st → P (processAmount st u a))
    (hinit : P {}) (updates : List FeeUpdate) :
    P (generateFeesTable updates) := by
  refine foldl_preserve P processUpdate ?_ _ {} hinit
  intro s u hs
  exact foldl_preserve P _ (fun s' a hs' => hstep s' u a hs') u.amounts s hs

/-- Every valid candidate's key ends in the generator's seen-set, whatever
its provenance. -/
theorem generateFeesTable_key_in_seen (updates : List FeeUpdate)
    (u : FeeUpdate) (a : AmountInfo) (k : String × String × String)
    (hu : u ∈ updates) (ha : a ∈ u.amounts)
    (hk : candidateKey u a = some k) :
    k ∈ (generateFeesTable updates).seen := by
  have hmem : renameSource u ∈ (updates.map renameSource).insertionSort updLE := by
    rw [List.mem_insertionSort]
    exact List.mem_map_of_mem _ hu
  refine foldl_establish (fun st => k ∈ st.seen) processUpdate (fun s x hs => ?_)
    (renameSource u) (fun s => ?_) _ {} hmem
  · exact foldl_preserve (fun st => k ∈ st.seen) _
      (fun s' a' hs' => processAmount_seen_mono s' x a' k hs') x.amounts s hs
  · have ha' : a ∈ (renameSource u).amounts := by
      rw [renameSource_amounts]; exact ha
    have hk' : candidateKey (renameSource u) a = some k := by
      rw [candidateKey_rename]; exact hk
    exact foldl_establish (fun st => k ∈ st.seen) _
      (fun s' a' hs' => processAmount_seen_mono s' (renameSource u) a' k hs') a
      (fun s' => processAmount_key_established s' (renameSource u) a k hk')
      _ s ha'

/-! ### Lemmas about the whitelist matchers -/

/-- A canonical-generator match comes from the whitelist. -/
theorem matchPredefined_mem (wl : List String) (cat m : String)
    (h : matchPredefined wl cat = some m) : m ∈ wl := by
  cases hex : findExactMatch wl cat with
  | some m' =>
    simp only [matchPredefined, hex] at h
    injection h with h
    subst h
    simp only [findExactMatch] at hex
    exact List.mem_of_find?_eq_some hex
  | none =>
    simp only [matchPredefined, hex, findContainMatch] at h
    exact List.mem_of_find?_eq_some h

/-- A canonical-generator match is justified by an exact lowercase equality
or by containment in either direction — never by any score threshold. -/
theorem matchPredefined_spec (wl : List String) (cat m : String)
    (h : matchPredefined wl cat = some m) :
    (cat == lowerStr m) = true ∨
    (strContains cat (lowerStr m) || strContains (lowerStr m) cat) = true := by
  cases hex : findExactMatch wl cat with
  | some m' =>
    simp only [matchPredefined, hex] at h
    injection h with h
    subst h
    simp only [findExactMatch] at hex
    have hp := List.find?_some hex
    exact Or.inl hp
  | none =>
    simp only [matchPredefined, hex, findContainMatch] at h
    have hp := List.find?_some h
    exact Or.inr hp

/-- When some whitelist entry matches exactly, the canonical generator
returns an exact match (the partial loop is never consulted). -/
theorem matchPredefined_exact_priority (wl : List String) (cat : String)
    (hex : ∃ e ∈ wl, (cat == lowerStr e) = true) :
    ∃ m, matchPredefined wl cat = some m ∧ (cat == lowerStr m) = true := by
  have hs : (findExactMatch wl cat).isSome := by
    simp only [findExactMatch, List.find?_isSome]
    rcases hex with ⟨e, he, hpe⟩
    exact ⟨e, he, hpe⟩
  rcases Option.isSome_iff_exists.mp hs with ⟨m, hm⟩
  refine ⟨m, by simp only [matchPredefined, hm], ?_⟩
  have hm' := hm
  simp only [findExactMatch] at hm'
  have hp := List.find?_some hm'
  exact hp

/-- The first containment hit wins in the canonical generator's partial
loop. -/
theorem findContainMatch_head (cat e1 e2 : String)
    (h : (strContains cat (lowerStr e1) || strContains (lowerStr e1) cat) = true) :
    findContainMatch [e1, e2] cat = some e1 := by
  simp [findContainMatch, List.find?, h]

/-- One azure fold step never decreases the best score. -/
theorem azureStep_snd_mono (catL fee : String) (acc : Option String × ℚ) :
    acc.2 ≤ (azureStep catL acc fee).2 := by
  rw [azureStep]
  split_ifs with h1 h2 h3 h4
  · exact le_of_lt h2
  · exact le_refl _
  · exact le_of_lt h4
  · exact le_refl _
  · exact le_refl _

/-- After one azure fold step the best score dominates this entry's score,
provided the running best is nonnegative. -/
theorem azureStep_snd_ge (catL fee : String) (acc : Option String × ℚ)
    (hge : 0 ≤ acc.2) :
    azureScoreOf catL fee ≤ (azureStep catL acc fee).2 := by
  rw [azureStep, azureScoreOf]
  split_ifs with h1 h2 h3 h4
  · exact le_refl _
  · exact le_of_not_lt h2
  · exact le_refl _
  · exact le_of_not_lt h4
  · exact hge

/-- A step at a score not above the running best keeps the accumulator. -/
theorem azureStep_keep (catL fee : String) (acc : Option String × ℚ)
    (hle : azureScoreOf catL fee ≤ acc.2) :
    azureStep catL acc fee = acc := by
  rw [azureScoreOf] at hle
  rw [azureStep]
  split_ifs with h1 h2 h3 h4
  · rw [if_pos h1] at hle; exact absurd h2 (not_lt_of_le hle)
  · rfl
  · rw [if_neg h1, if_pos h3] at hle; exact absurd h4 (not_lt_of_le hle)
  · rfl
  · rfl

/-- A step at a score above the nonnegative running best installs this
entry with its score. -/
theorem azureStep_update (catL fee : String) (acc : Option String × ℚ)
    (hge : 0 ≤ acc.2) (hgt : acc.2 < azureScoreOf catL fee) :
    azureStep catL acc fee = (some fee, azureScoreOf catL fee) := by
  rw [azureScoreOf] at hgt ⊢
  rw [azureStep]
  split_ifs with h1 h2 h3 h4
  · rfl
  · rw [if_pos h1] at hgt; exact absurd hgt (not_lt_of_le (le_of_not_lt h2))
  · rfl
  · rw [if_neg h1, if_pos h3] at hgt; exact absurd hgt (not_lt_of_le (le_of_not_lt h4))
  · rw [if_neg h1, if_neg h3] at hgt; exact absurd hgt (not_lt_of_le hge)

/-- The azure fold's best score is monotone along the whitelist. -/
theorem azureFold_snd_mono (catL : String) :
    ∀ (wl : List String) (acc : Option String × ℚ),
      acc.2 ≤ (wl.foldl (azureStep catL) acc).2 := by
  intro wl
  induction wl with
  | nil => intro acc; exact le_refl _
  | cons g gs ih =>
    intro acc
    exact le_trans (azureStep_snd_mono catL g acc) (ih (azureStep catL acc g))

/-- The azure fold's best score dominates the score of every whitelist
entry. -/
theorem azureFold_snd_ge (catL : String) :
    ∀ (wl : List String) (acc : Option String × ℚ), 0 ≤ acc.2 →
      ∀ fee ∈ wl, azureScoreOf catL fee ≤ (wl.foldl (azureStep catL) acc).2 := by
  intro wl
  induction wl with
  | nil => intro acc _ fee hf; cases hf
  | cons g gs ih =>
    intro acc hge fee hf
    rcases List.mem_cons.mp hf with h | h
    · subst h
      exact le_trans (azureStep_snd_ge catL fee acc hge)
        (azureFold_snd_mono catL gs (azureStep catL acc fee))
    · exact ih (azureStep catL acc g)
        (le_trans hge (azureStep_snd_mono catL g acc)) fee h

/-- Shape invariant of the azure fold accumulator: a `none` best has score
`0`; a `some` best carries exactly its entry's containment score, and that
entry contains or is contained in the category. -/
theorem azureFold_inv (catL : String) :
    ∀ (wl : List String) (acc : Option String × ℚ),
      ((acc.1 = none → acc.2 = 0) ∧
       (∀ m, acc.1 = some m → acc.2 = azureScoreOf catL m ∧
         (strContains catL (pyStrip (lowerStr m)) ||
          strContains (pyStrip (lowerStr m)) catL) = true)) →
      ((wl.foldl (azureStep catL) acc).1 = none →
        (wl.foldl (azureStep catL) acc).2 = 0) ∧
      (∀ m, (wl.foldl (azureStep catL) acc).1 = some m →
        (wl.foldl (azureStep catL) acc).2 = azureScoreOf catL m ∧
        (strContains catL (pyStrip (lowerStr m)) ||
         strContains (pyStrip (lowerStr m)) catL) = true) := by
  intro wl
  induction wl with
  | nil => intro acc h; exact h
  | cons g gs ih =>
    intro acc h
    refine ih (azureStep catL acc g) ?_
    rw [azureStep]
    split_ifs with h1 h2 h3 h4
    · constructor
      · intro hc; cases hc
      · intro m hm
        injection hm with hm
        subst hm
        rw [azureScoreOf, if_pos h1]
        exact ⟨rfl, by rw [h1]; rfl⟩
    · exact h
    · constructor
      · intro hc; cases hc
      · intro m hm
        injection hm with hm
        subst hm
        rw [azureScoreOf, if_neg h1, if_pos h3]
        exact ⟨rfl, by rw [h3]; simp⟩
    · exact h
    · exact h

/-! ## Claim theorems -/

/-- C7: every fee record emitted by table generation is placed in exactly
one of the Predefined, Keys and Other tables — the concatenation of the
three tables is a permutation of the emitted `allFees` list, so no record
appears in two of them and none is left out of all three. -/
theorem c7_three_table_partition (updates : List FeeUpdate) :
    (generateFeesTable updates).allFees.Perm
      ((generateFeesTable updates).predefined ++
       (generateFeesTable updates).keys ++ (generateFeesTable updates).other) := by
  have hinv := generateFeesTable_invariant
    (fun st => ∀ x : FeeEntry, st.allFees.count x =
      st.predefined.count x + st.keys.count x + st.other.count x)
    (fun st u a h => processAmount_count st u a h)
    (fun _ => rfl) updates
  rw [List.perm_iff_count]
  intro x
  simp only [List.count_append]
  rw [hinv x]

/-- C8: the Deduplicator is idempotent — running it on its own output
returns that output unchanged. -/
theorem c8_deduplicator_idempotent (xs : List DedupRec) :
    deduplicator (deduplicator xs) = deduplicator xs := by
  have hsorted : (deduplicator xs).Sorted dedupLE := deduplicator_sorted xs
  show dedupPass [] ((deduplicator xs).insertionSort dedupLE) = deduplicator xs
  rw [hsorted.insertionSort_eq]
  exact dedupPass_eq_self _ [] (nodup_keys_dedupPass _ []) (fun r _ => by simp)

/-- C6 (amended): extraction itself does not reject non-positive amounts,
but table generation skips them, so every entry of every output table
carries a strictly positive amount, rendered as `"$"` plus its two-decimal
formatting. -/
theorem c6_table_amounts_positive (updates : List FeeUpdate) (e : FeeEntry)
    (he : e ∈ (generateFeesTable updates).allFees ∨
          e ∈ (generateFeesTable updates).predefined ∨
          e ∈ (generateFeesTable updates).keys ∨
          e ∈ (generateFeesTable updates).other) :
    ∃ v : ℚ, 0 < v ∧ e.amount = "$" ++ fmt2 v := by
  refine generateFeesTable_invariant
    (fun st => ∀ x : FeeEntry,
      (x ∈ st.allFees ∨ x ∈ st.predefined ∨ x ∈ st.keys ∨ x ∈ st.other) →
      ∃ v : ℚ, 0 < v ∧ x.amount = "$" ++ fmt2 v)
    (fun st u a h => processAmount_positive st u a h)
    ?_ updates e he
  intro x hx
  rcases hx with hx | hx | hx | hx <;> simp at hx

/-- C6 (counterexample to the claim as stated): on the block `"fee $0"` the
extractor emits a candidate whose amount is `"0"`, which parses to `0`, not
a strictly positive value — the rejection happens later, in table
generation, not in the extractor. -/
theorem c6_extractor_emits_nonpositive :
    (extractFeeInformation [zeroFeeRaw]).flatMap (fun u => u.amounts) =
      [{ amount := "0", context := "fee $0", isExplicitlyApproved := false,
         feeType := "" }] ∧
    pyFloat? "0" = some 0 ∧ ¬ (0 : ℚ) > 0 := by
  refine ⟨by decide, by decide, by norm_num⟩

/-- C6 witness: the amended positivity law applied to the storage fixture's
output tables. -/
theorem c6_table_amounts_positive_witness :
    ∃ v : ℚ, 0 < v ∧ storEntry.amount = "$" ++ fmt2 v :=
  c6_table_amounts_positive [storUpUpdate] storEntry (Or.inl (by decide))

/-- C1 (amended): for any represented DedupKey exactly one candidate
survives deduplication (rather than appears in the output tables); every
survivor has minimal provenance priority among the candidates sharing its
key; between two candidates sharing a key, a Database one beats an Updates
one in either input order, and a priority tie is won by the first
encountered; and a survivor reaches the output tables only when its
provenance is not Database. -/
theorem c1_dedup_priority_law :
    (∀ (xs : List DedupRec) (k : String × String × String),
        (∃ r ∈ xs, keyOf r = k) →
        ((deduplicator xs).map keyOf).count k = 1) ∧
    (∀ (xs : List DedupRec) (r s : DedupRec),
        r ∈ deduplicator xs → s ∈ xs → keyOf s = keyOf r →
        priorityOf r.source ≤ priorityOf s.source) ∧
    (∀ r1 r2 : DedupRec, keyOf r1 = keyOf r2 →
        r1.source = "Database" → r2.source = "Updates" →
        deduplicator [r1, r2] = [r1] ∧ deduplicator [r2, r1] = [r1]) ∧
    (∀ r1 r2 : DedupRec, keyOf r1 = keyOf r2 →
        priorityOf r1.source = priorityOf r2.source →
        deduplicator [r1, r2] = [r1]) ∧
    (∀ (updates : List FeeUpdate) (e : FeeEntry),
        e ∈ (generateFeesTable updates).allFees → e.source ≠ "Database") := by
  refine ⟨?_, ?_, ?_, ?_, ?_⟩
  · intro xs k hex
    refine count_key_dedupPass_eq_one _ [] k (by simp) ?_
    rcases hex with ⟨r, hr, hk⟩
    exact ⟨r, by rw [List.mem_insertionSort]; exact hr, hk⟩
  · intro xs r s hr hs hk
    exact dedupPass_min_priority _ [] (List.sorted_insertionSort dedupLE xs) r s hr
      (by rw [List.mem_insertionSort]; exact hs) hk (by simp)
  · intro r1 r2 hk h1 h2
    constructor
    · refine deduplicator_pair_first r1 r2 hk ?_
      rw [h1, h2]; decide
    · refine deduplicator_pair_second r2 r1 hk.symm ?_
      rw [h1, h2]; decide
  · intro r1 r2 hk hp
    exact deduplicator_pair_first r1 r2 hk (le_of_eq hp)
  · intro updates e he
    refine generateFeesTable_invariant
      (fun st => ∀ x : FeeEntry,
        (x ∈ st.allFees ∨ x ∈ st.predefined ∨ x ∈ st.keys ∨ x ∈ st.other) →
        x.source ≠ "Database")
      (fun st u a h => processAmount_no_db st u a h)
      ?_ updates e (Or.inl he)
    intro x hx
    rcases hx with hx | hx | hx | hx <;> simp at hx

/-- C1 (counterexample to the claim as stated): a Database-provenance and an
Updates-provenance candidate share a DedupKey, yet neither appears in any
output table — the Database survivor is excluded from the tables and its key
suppresses the Updates candidate, while the Updates candidate alone would
have produced an entry. -/
theorem c1_pair_vanishes_from_tables :
    candidateKey pairDbUpdate pairAmount = candidateKey pairUpUpdate pairAmount ∧
    (candidateKey pairDbUpdate pairAmount).isSome = true ∧
    (generateFeesTable [pairDbUpdate, pairUpUpdate]).allFees = [] ∧
    (generateFeesTable [pairDbUpdate, pairUpUpdate]).predefined = [] ∧
    (generateFeesTable [pairDbUpdate, pairUpUpdate]).keys = [] ∧
    (generateFeesTable [pairDbUpdate, pairUpUpdate]).other = [] ∧
    (generateFeesTable [pairUpUpdate]).allFees ≠ [] := by
  decide

/-- C1 witness: the amended law applied to the concrete Database/Updates
pair and to the concrete tie pair. -/
theorem c1_dedup_priority_law_witness :
    ((deduplicator [recDb, recUp]).map keyOf).count (keyOf recDb) = 1 ∧
    priorityOf recDb.source ≤ priorityOf recUp.source ∧
    deduplicator [recDb, recUp] = [recDb] ∧
    deduplicator [recUp, recDb] = [recDb] ∧
    deduplicator [recUp, recUp2] = [recUp] ∧
    storEntry.source ≠ "Database" := by
  refine ⟨?_, ?_, ?_, ?_, ?_, ?_⟩
  · exact c1_dedup_priority_law.1 [recDb, recUp] (keyOf recDb)
      ⟨recDb, by decide, rfl⟩
  · exact c1_dedup_priority_law.2.1 [recDb, recUp] recDb recUp
      (by decide) (by decide) (by decide)
  · exact (c1_dedup_priority_law.2.2.1 recDb recUp (by decide) rfl rfl).1
  · exact (c1_dedup_priority_law.2.2.1 recDb recUp (by decide) rfl rfl).2
  · exact c1_dedup_priority_law.2.2.2.1 recUp recUp2 (by decide) rfl
  · exact c1_dedup_priority_law.2.2.2.2 [storUpUpdate] storEntry (by decide)

/-- C9 (implicit): entries of any of the four returned tables never have
Database provenance; every valid candidate's DedupKey — including a
Database-provenance one — is entered into the seen-set; and on a concrete
Database/Updates duplicate pair the suppressed Updates candidate appears in
no table either. -/
theorem c9_database_shadowing :
    (∀ (updates : List FeeUpdate) (e : FeeEntry),
        (e ∈ (generateFeesTable updates).allFees ∨
         e ∈ (generateFeesTable updates).predefined ∨
         e ∈ (generateFeesTable updates).keys ∨
         e ∈ (generateFeesTable updates).other) →
        e.source ≠ "Database") ∧
    (∀ (updates : List FeeUpdate) (u : FeeUpdate) (a : AmountInfo)
        (k : String × String × String),
        u ∈ updates → a ∈ u.amounts → candidateKey u a = some k →
        k ∈ (generateFeesTable updates).seen) ∧
    (candidateKey storDbUpdate storAmount = some storKey ∧
     candidateKey storUpUpdate storAmount = some storKey ∧
     (generateFeesTable [storDbUpdate, storUpUpdate]).allFees = [] ∧
     (generateFeesTable [storDbUpdate, storUpUpdate]).predefined = [] ∧
     (generateFeesTable [storDbUpdate, storUpUpdate]).keys = [] ∧
     (generateFeesTable [storDbUpdate, storUpUpdate]).other = [] ∧
     (generateFeesTable [storDbUpdate, storUpUpdate]).seen = [storKey]) := by
  refine ⟨?_, ?_, by decide⟩
  · intro updates e he
    refine generateFeesTable_invariant
      (fun st => ∀ x : FeeEntry,
        (x ∈ st.allFees ∨ x ∈ st.predefined ∨ x ∈ st.keys ∨ x ∈ st.other) →
        x.source ≠ "Database")
      (fun st u a h => processAmount_no_db st u a h)
      ?_ updates e he
    intro x hx
    rcases hx with hx | hx | hx | hx <;> simp at hx
  · intro updates u a k hu ha hk
    exact generateFeesTable_key_in_seen updates u a k hu ha hk

/-- C9 witness: the universal parts applied to the storage fixtures. -/
theorem c9_database_shadowing_witness :
    storEntry.source ≠ "Database" ∧
    storKey ∈ (generateFeesTable [storDbUpdate, storUpUpdate]).seen := by
  constructor
  · exact c9_database_shadowing.1 [storUpUpdate] storEntry (Or.inl (by decide))
  · exact c9_database_shadowing.2.1 [storDbUpdate, storUpUpdate] storDbUpdate
      storAmount storKey (by decide) (by decide) (by decide)

/-- C5 (the code at the failing input): on the Scenario-A block with
Updates provenance, extraction emits its only candidate with an empty
`feeType` — no `"Keys Fee"` type hint — and table generation routes the
resulting record to the Other table as `"Unknown Fee"`, leaving the Keys
table empty. The key-specific patterns compiled at the top of
`extract_fee_information` are never applied in its loop. -/
theorem c5_key_block_lands_in_other :
    extractFeeInformation [keyBlockRaw] =
      [{ date := "01/02/2025", type := "", user := "Agent",
         content := "push to start key made for $45.00 on the vehicle",
         amounts := [{ amount := "45.00",
                       context := "push to start key made for $45.00 on the vehicle",
                       isExplicitlyApproved := false, feeType := "" }],
         isApproved := false, source := "Updates", feeLabel := "" }] ∧
    pyFloat? "45.00" = some 45 ∧
    (generateFeesTable (extractFeeInformation [keyBlockRaw])).keys = [] ∧
    (generateFeesTable (extractFeeInformation [keyBlockRaw])).other.map
      (fun e => e.category) = ["Unknown Fee"] := by
  decide

/-- Every comma is stripped from a recorded amount string. -/
theorem stripCommas_no_comma (s : String) : ',' ∉ (stripCommas s).data := by
  simp [stripCommas]

/-- Every amount a pattern family records is comma-free. -/
theorem familyAmounts_no_comma (p : Pat) (b : Bool) (content : String)
    (a : AmountInfo) (ha : a ∈ familyAmounts p b content) :
    ',' ∉ a.amount.data := by
  rcases List.mem_map.mp ha with ⟨m, _, rfl⟩
  exact stripCommas_no_comma _

/-- Every amount extracted from a content string is comma-free. -/
theorem extractAmounts_no_comma (content : String) (a : AmountInfo)
    (ha : a ∈ extractAmounts content) : ',' ∉ a.amount.data := by
  simp only [extractAmounts, List.mem_append] at ha
  rcases ha with ((((h | h) | h) | h) | h) | h <;>
    exact familyAmounts_no_comma _ _ _ _ h

/-- Every amount the key-fee scanner records is comma-free. -/
theorem scanForKeyFees_no_comma (text : String) (a : AmountInfo)
    (ha : a ∈ scanForKeyFees text) : ',' ∉ a.amount.data := by
  unfold scanForKeyFees at ha
  split at ha
  · cases ha
  · rcases List.mem_flatMap.mp ha with ⟨p, _, hp⟩
    rcases List.mem_map.mp hp with ⟨m, _, rfl⟩
    exact stripCommas_no_comma _

/-- C10: every extraction pattern records its amount with comma thousands
separators stripped — both in `extract_fee_information` and in
`scan_for_key_fees` — and concretely the mention `"$1,250.00"` yields the
amount string `"1250.00"`, which parses to exactly `1250`. -/
theorem c10_comma_stripping :
    (∀ (content : String) (a : AmountInfo),
        a ∈ extractAmounts content → ',' ∉ a.amount.data) ∧
    (∀ (text : String) (a : AmountInfo),
        a ∈ scanForKeyFees text → ',' ∉ a.amount.data) ∧
    ((extractFeeInformation [commaFeeRaw]).flatMap (fun u => u.amounts)).map
      (fun a => a.amount) = ["1250.00"] ∧
    pyFloat? "1250.00" = some 1250 ∧
    (scanForKeyFees "fee $1,250.00").map (fun a => a.amount) =
      ["1250.00", "1250.00"] :=
  ⟨extractAmounts_no_comma, scanForKeyFees_no_comma, by decide, by decide,
   by decide⟩

/-- C10 witness: the comma-free laws applied to the concrete comma-grouped
mention. -/
theorem c10_comma_stripping_witness :
    ',' ∉ ({ amount := "1250.00", context := "fee $1,250.00",
             isExplicitlyApproved := false, feeType := "" } : AmountInfo).amount.data ∧
    ',' ∉ ({ amount := "1250.00", context := "fee $1,250.00",
             isExplicitlyApproved := false,
             feeType := "Unknown Fee" } : AmountInfo).amount.data := by
  constructor
  · exact c10_comma_stripping.1 "fee $1,250.00" _ (by decide)
  · exact c10_comma_stripping.2.1 "fee $1,250.00" _ (by decide)

/-- What an accepted azure partial match guarantees: its score beats the
`0.5` threshold, it has containment with the category, and no whitelist
entry scores higher. -/
theorem azureContainMatch_spec (wl : List String) (catL m : String)
    (h : azureContainMatch wl catL = some m) :
    mkRat 1 2 < azureScoreOf catL m ∧
    (strContains catL (pyStrip (lowerStr m)) ||
     strContains (pyStrip (lowerStr m)) catL) = true ∧
    ∀ e ∈ wl, azureScoreOf catL e ≤ azureScoreOf catL m := by
  have hinv := azureFold_inv catL wl (none, 0)
    ⟨fun _ => rfl, fun x hx => by cases hx⟩
  have hge := azureFold_snd_ge catL wl (none, 0) (le_refl 0)
  rw [azureContainMatch] at h
  split at h
  next m' s heq =>
    split at h
    next hgt =>
      injection h with h
      rw [h] at heq
      have h1 : (wl.foldl (azureStep catL) (none, 0)).1 = some m := by
        rw [show wl.foldl (azureStep catL) (none, 0) = azureBest wl catL from rfl,
          heq]
      have h2 := hinv.2 m h1
      have hs : s = azureScoreOf catL m := by
        have h3 := h2.1
        rw [show wl.foldl (azureStep catL) (none, 0) = azureBest wl catL from rfl,
          heq] at h3
        exact h3
      refine ⟨hs ▸ hgt, h2.2, ?_⟩
      intro e he
      have h4 := hge e he
      rw [show wl.foldl (azureStep catL) (none, 0) = azureBest wl catL from rfl,
        heq] at h4
      exact hs ▸ h4
    next => exact absurd h (by simp)
  next => exact absurd h (by simp)

/-- C3 (amended): in the canonical generator an exact lowercase match wins
outright and otherwise the first whitelist entry with containment in either
direction is accepted regardless of any score, displayed with its whitelist
spelling; the `min/max`-score rule with the strict `0.5` threshold governs
only the azure variant, whose accepted entry has maximal score and whose
ties go to the earlier entry. -/
theorem c3_whitelist_matching_laws :
    (∀ (wl : List String) (cat m : String),
        matchPredefined wl cat = some m → m ∈ wl) ∧
    (∀ (wl : List String) (cat m : String), matchPredefined wl cat = some m →
        (cat == lowerStr m) = true ∨
        (strContains cat (lowerStr m) || strContains (lowerStr m) cat) = true) ∧
    (∀ (wl : List String) (cat : String),
        (∃ e ∈ wl, (cat == lowerStr e) = true) →
        ∃ m, matchPredefined wl cat = some m ∧ (cat == lowerStr m) = true) ∧
    (∀ (cat e1 e2 : String),
        (strContains cat (lowerStr e1) || strContains (lowerStr e1) cat) = true →
        findContainMatch [e1, e2] cat = some e1) ∧
    (∀ (wl : List String) (catL m : String),
        azureContainMatch wl catL = some m →
        mkRat 1 2 < azureScoreOf catL m ∧
        (strContains catL (pyStrip (lowerStr m)) ||
         strContains (pyStrip (lowerStr m)) catL) = true) ∧
    (∀ (wl : List String) (catL m : String),
        azureContainMatch wl catL = some m →
        ∀ e ∈ wl, azureScoreOf catL e ≤ azureScoreOf catL m) ∧
    (∀ (catL e1 e2 : String),
        azureScoreOf catL e1 = azureScoreOf catL e2 →
        mkRat 1 2 < azureScoreOf catL e1 →
        azureContainMatch [e1, e2] catL = some e1) := by
  refine ⟨matchPredefined_mem, matchPredefined_spec, matchPredefined_exact_priority,
    findContainMatch_head, ?_, ?_, ?_⟩
  · intro wl catL m h
    exact ⟨(azureContainMatch_spec wl catL m h).1,
           (azureContainMatch_spec wl catL m h).2.1⟩
  · intro wl catL m h
    exact (azureContainMatch_spec wl catL m h).2.2
  · intro catL e1 e2 heq hgt
    have h0 : (0 : ℚ) < azureScoreOf catL e1 := lt_trans (by decide) hgt
    have hstep1 : azureStep catL (none, 0) e1 = (some e1, azureScoreOf catL e1) :=
      azureStep_update catL e1 (none, 0) (le_refl 0) h0
    have hstep2 : azureStep catL (some e1, azureScoreOf catL e1) e2 =
        (some e1, azureScoreOf catL e1) :=
      azureStep_keep catL e2 _ (le_of_eq heq.symm)
    have hbest : azureBest [e1, e2] catL = (some e1, azureScoreOf catL e1) := by
      show azureStep catL (azureStep catL (none, 0) e1) e2 = _
      rw [hstep1, hstep2]
    rw [azureContainMatch, hbest]
    simp only
    rw [if_pos hgt]

/-- C3 (counterexample to the claim as stated): the canonical generator's
classifier accepts the containment match `"Bonus"` for the category
`"bonus payment plan"` although the containment score `5/18` does not
exceed `0.5` — the azure variant rejects the same pair. -/
theorem c3_low_score_containment_accepted :
    matchPredefined preApprovedFees "bonus payment plan" = some "Bonus" ∧
    specScore "Bonus" "bonus payment plan" = mkRat 5 18 ∧
    ¬ mkRat 1 2 < specScore "Bonus" "bonus payment plan" ∧
    azureMatch preApprovedFees "bonus payment plan" = none := by
  decide

/-- C3 witness: the matching laws applied to concrete categories. -/
theorem c3_whitelist_matching_laws_witness :
    "Bonus" ∈ preApprovedFees ∧
    (∃ m, matchPredefined preApprovedFees "flatbed fees" = some m ∧
      ("flatbed fees" == lowerStr m) = true) ∧
    findContainMatch ["Bonus", "OTHER"] "bonus payment plan" = some "Bonus" ∧
    mkRat 1 2 < azureScoreOf "flatbed fee" "Flatbed Fees" ∧
    azureScoreOf "flatbed fee" "Bonus" ≤ azureScoreOf "flatbed fee" "Flatbed Fees" ∧
    azureContainMatch ["abcd", "cdef"] "abcdef" = some "abcd" := by
  refine ⟨?_, ?_, ?_, ?_, ?_, ?_⟩
  · exact c3_whitelist_matching_laws.1 preApprovedFees "bonus payment plan" "Bonus"
      (by decide)
  · exact c3_whitelist_matching_laws.2.2.1 preApprovedFees "flatbed fees"
      ⟨"Flatbed Fees", by decide, by decide⟩
  · exact c3_whitelist_matching_laws.2.2.2.1 "bonus payment plan" "Bonus" "OTHER"
      (by decide)
  · exact (c3_whitelist_matching_laws.2.2.2.2.1 preApprovedFees "flatbed fee"
      "Flatbed Fees" (by decide)).1
  · exact c3_whitelist_matching_laws.2.2.2.2.2.1 preApprovedFees "flatbed fee"
      "Flatbed Fees" (by decide) "Bonus" (by decide)
  · exact c3_whitelist_matching_laws.2.2.2.2.2.2 "abcdef" "abcd" "cdef"
      (by decide) (by decide)

/-- The primary stage yields nothing whenever any truthy resolved
lienholder id has no matching fee row (covering the unresolved and
zero-id cases as well). -/
theorem primaryStage_none (db : Db) (cid fid : ℤ) (l : String)
    (hprim : ∀ lid, findLienholderId db l = some lid → lid ≠ 0 →
      feeQuery db cid lid fid = none) :
    primaryStage db cid fid (findLienholderId db l) = none := by
  cases hl : findLienholderId db l with
  | none => rfl
  | some lid =>
    simp only [primaryStage]
    by_cases hz : lid = 0
    · rw [if_pos hz]
    · rw [if_neg hz]
      exact hprim lid hl hz

/-- C2 (amended): whenever the primary lookup produces nothing but a row
exists for the client, the Standard lienholder and the fee type,
`lookup_repo_fee` returns that row tagged `is_fallback = true` with the
explanatory message quoting the input lienholder name, and the returned
lienholder name is the Standard row's joined lienholder name — not the
original input name — followed by `" (Standard Fallback)"`. -/
theorem c2_fallback_rename_law (db : Db) (c l f : String) (cid fid stdId : ℤ)
    (j : JoinedFee)
    (hc : findClientId db c = some cid)
    (hf : findFeeTypeId db f = some fid)
    (hprim : ∀ lid, findLienholderId db l = some lid → lid ≠ 0 →
        feeQuery db cid lid fid = none)
    (hstd : findLienholderId db "Standard" = some stdId)
    (hrow : feeQuery db cid stdId fid = some j) :
    lookupRepoFee (some db) c l f = some
      { fd_id := j.fd_id, client_name := j.client_name,
        lienholder_name := j.lienholder_name ++ " (Standard Fallback)",
        fee_type := j.fee_type, amount := j.amount, is_fallback := true,
        message := some (stdFallbackMsg l) } := by
  have hps := primaryStage_none db cid fid l hprim
  simp only [lookupRepoFee, hc, hf, hps, fallbackStage, hstd, hrow,
    mkFallbackResult]

/-- C2 (counterexample to the claim as stated): with no `"Acme Bank"`
lienholder and one Standard row, the lookup falls back and returns
`lienholder_name = "Standard (Standard Fallback)"`, which is not the
original input name `"Acme Bank"` followed by `" (Standard Fallback)"`. -/
theorem c2_fallback_name_not_original :
    lookupRepoFee (some fallbackDb) "ClientX" "Acme Bank" "Involuntary Repo" =
      some { fd_id := 10, client_name := "ClientX",
             lienholder_name := "Standard (Standard Fallback)",
             fee_type := "Involuntary Repo", amount := 300,
             is_fallback := true,
             message := some (stdFallbackMsg "Acme Bank") } ∧
    "Standard (Standard Fallback)" ≠ "Acme Bank" ++ " (Standard Fallback)" := by
  decide

/-- C2 witness: the fallback rename law applied to the store in which
`"Acme Bank"` resolves but owns no fee row. -/
theorem c2_fallback_rename_law_witness :
    lookupRepoFee (some witnessDb) "Acme" "Acme Bank" "Involuntary Repo" =
      some { fd_id := 11, client_name := "Acme",
             lienholder_name := "Standard" ++ " (Standard Fallback)",
             fee_type := "Involuntary Repo", amount := 250,
             is_fallback := true,
             message := some (stdFallbackMsg "Acme Bank") } := by
  refine c2_fallback_rename_law witnessDb "Acme" "Acme Bank" "Involuntary Repo"
    1 3 2 ⟨11, "Acme", "Standard", "Involuntary Repo", 250⟩
    (by decide) (by decide) ?_ (by decide) (by decide)
  intro lid hl hz
  have h5 : findLienholderId witnessDb "Acme Bank" = some 5 := by decide
  rw [h5] at hl
  injection hl with hl
  rw [← hl]
  decide

/-- C4: the lookup's error contract — a failed connection, an unresolved
client name, an unresolved fee-type name, and a miss at both the primary
and the Standard-fallback stage each produce `None` (the embedding is a
total function, mirroring the source's catch-all handler that converts any
fault into `None` instead of re-raising), while an unresolved lienholder
name alone is non-fatal and flows into the fallback stage. -/
theorem c4_lookup_error_contract :
    (∀ c l f : String, lookupRepoFee none c l f = none) ∧
    (∀ (db : Db) (c l f : String), findClientId db c = none →
        lookupRepoFee (some db) c l f = none) ∧
    (∀ (db : Db) (c l f : String), findFeeTypeId db f = none →
        lookupRepoFee (some db) c l f = none) ∧
    (∀ (db : Db) (c l f : String) (cid fid : ℤ),
        findClientId db c = some cid → findFeeTypeId db f = some fid →
        (∀ lid, findLienholderId db l = some lid → lid ≠ 0 →
          feeQuery db cid lid fid = none) →
        findLienholderId db "Standard" = none →
        lookupRepoFee (some db) c l f = none) ∧
    (∀ (db : Db) (c l f : String) (cid fid stdId : ℤ),
        findClientId db c = some cid → findFeeTypeId db f = some fid →
        (∀ lid, findLienholderId db l = some lid → lid ≠ 0 →
          feeQuery db cid lid fid = none) →
        findLienholderId db "Standard" = some stdId →
        feeQuery db cid stdId fid = none →
        lookupRepoFee (some db) c l f = none) ∧
    (∀ (db : Db) (c l f : String) (cid fid stdId : ℤ) (j : JoinedFee),
        findClientId db c = some cid → findFeeTypeId db f = some fid →
        findLienholderId db l = none →
        findLienholderId db "Standard" = some stdId →
        feeQuery db cid stdId fid = some j →
        lookupRepoFee (some db) c l f = some (mkFallbackResult j l)) := by
  refine ⟨?_, ?_, ?_, ?_, ?_, ?_⟩
  · intro c l f; rfl
  · intro db c l f h
    simp only [lookupRepoFee, h]
  · intro db c l f h
    cases hc : findClientId db c with
    | none => simp only [lookupRepoFee, hc]
    | some cid => simp only [lookupRepoFee, hc, h]
  · intro db c l f cid fid hc hf hprim hstd
    have hps := primaryStage_none db cid fid l hprim
    simp only [lookupRepoFee, hc, hf, hps, fallbackStage, hstd]
  · intro db c l f cid fid stdId hc hf hprim hstd hrow
    have hps := primaryStage_none db cid fid l hprim
    simp only [lookupRepoFee, hc, hf, hps, fallbackStage, hstd, hrow]
  · intro db c l f cid fid stdId j hc hf hl hstd hrow
    have hps : primaryStage db cid fid (findLienholderId db l) = none := by
      rw [hl]; rfl
    simp only [lookupRepoFee, hc, hf, hps, fallbackStage, hstd, hrow]

/-- C4 witness: each error-contract clause at a concrete store. -/
theorem c4_lookup_error_contract_witness :
    lookupRepoFee none "Acme" "Acme Bank" "Involuntary Repo" = none ∧
    lookupRepoFee (some witnessDb) "Nobody" "Acme Bank" "Involuntary Repo" = none ∧
    lookupRepoFee (some witnessDb) "Acme" "Acme Bank" "Voluntary Repo" = none ∧
    lookupRepoFee (some ⟨[⟨1, "C"⟩], [⟨5, "L"⟩], [⟨3, "T"⟩], []⟩) "C" "L" "T" = none ∧
    lookupRepoFee (some fallbackDb) "ClientX" "Unknown Bank" "Involuntary Repo" =
      some (mkFallbackResult ⟨10, "ClientX", "Standard", "Involuntary Repo", 300⟩
        "Unknown Bank") := by
  refine ⟨?_, ?_, ?_, ?_, ?_⟩
  · exact c4_lookup_error_contract.1 "Acme" "Acme Bank" "Involuntary Repo"
  · exact c4_lookup_error_contract.2.1 witnessDb "Nobody" "Acme Bank"
      "Involuntary Repo" (by decide)
  · exact c4_lookup_error_contract.2.2.1 witnessDb "Acme" "Acme Bank"
      "Voluntary Repo" (by decide)
  · exact c4_lookup_error_contract.2.2.2.1 ⟨[⟨1, "C"⟩], [⟨5, "L"⟩], [⟨3, "T"⟩], []⟩
      "C" "L" "T" 1 3 (by decide) (by decide) (fun _ _ _ => rfl) (by decide)
  · exact c4_lookup_error_contract.2.2.2.2.2 fallbackDb "ClientX" "Unknown Bank"
      "Involuntary Repo" 1 3 2 ⟨10, "ClientX", "Standard", "Involuntary Repo", 300⟩
      (by decide) (by decide) (by decide) (by decide) (by decide)

end JamiFee
